import Mathlib

set_option autoImplicit false

/-!
Shallow embedding of the jrsonnet evaluator core, translated from
`crates/jrsonnet-evaluator/src/lib.rs`, `crates/jrsonnet-evaluator/src/error.rs`,
`crates/jrsonnet-evaluator/src/function/mod.rs` and
`bindings/jsonnet/src/native.rs`.

External collaborators that the analyzed slice only calls into (the parser,
the import resolver, the expression evaluator `evaluate`, UTF-8 decoding of
interned byte buffers, native callbacks) are modelled as explicit function
parameters.  The interior mutability of `State` (`RefCell<EvaluationData>`)
is modelled by explicit state passing: every operation takes an
`EvaluationData` and returns the updated one.  The `RefCell<EvaluationSettings>`
is passed as a read-only parameter, since no operation in the analyzed slice
mutates settings during evaluation.  `expect`/`unreachable!` panics are
modelled by a dedicated `Outcome.panic` result carrying the panic message.
-/

/-- Interned strings (`jrsonnet_interner::IStr`). -/
abbrev IStr := String

/-- Interned byte buffers (`jrsonnet_interner::IBytes`), modelled as byte lists. -/
abbrev IBytes := List Nat

/-- Canonical source identity produced by the import resolver
(`jrsonnet_parser::SourcePath`, an external collaborator): either a real
file path or a virtual file name.  Equality is the cache key equality. -/
inductive SourcePath where
  | real (p : String)
  | virt (name : String)
  deriving DecidableEq

/-- A `Source` pairs a canonical source identity with the interned source
code (`jrsonnet_parser::Source`).  `Source::new(path, code)` is the anonymous
constructor. -/
structure Source where
  path : SourcePath
  code : IStr
  deriving DecidableEq

/-- `Source::new_virtual(name, code)`. -/
def Source.new_virtual (name : IStr) (code : IStr) : Source :=
  ⟨SourcePath.virt name, code⟩

/-- Expression location (`jrsonnet_parser::ExprLocation`): a `Source` plus
byte offsets. -/
structure ExprLocation where
  source : Source
  from_off : Nat
  to_off : Nat
  deriving DecidableEq

/-- Opaque handle for a parsed AST (`jrsonnet_parser::LocExpr`).  The parser
is an external collaborator, so the AST is not interpreted by this slice;
only its identity matters for the cache. -/
structure LocExpr where
  ast_id : Nat
  deriving DecidableEq

/-- Function callsite location (`function::CallLocation`): either a jsonnet
expression location or native (no location). -/
abbrev CallLocation := Option ExprLocation

/-- `CallLocation::native()`. -/
def CallLocation.native : CallLocation := none

/-- The error taxonomy (`error::Error`).  Only the variants reachable from
the analyzed slice are included; the Rust enum is `#[non_exhaustive]` and
its remaining variants are never produced by the modelled operations. -/
inductive Error where
  | ImportBadFileUtf8 (path : SourcePath)
  | ImportSyntaxError (path : Source) (parse_err : Nat)
  | ImportNotSupported (from_path : SourcePath) (target : String)
  | ResolvedFileNotFound (path : SourcePath)
  | InfiniteRecursionDetected
  | StackOverflow
  | RuntimeError (msg : IStr)
  | TooManyArgsFunctionHas (n : Nat) (sig : List (Option IStr × Bool))
  | UnknownFunctionParameter (name : String)
  | BindingParameterASecondTime (name : IStr)
  | FunctionParameterNotBoundInCall (name : Option IStr) (sig : List (Option IStr × Bool))
  deriving DecidableEq

/-- Single stack trace frame (`error::StackTraceElement`). -/
structure StackTraceElement where
  location : Option ExprLocation
  desc : String
  deriving DecidableEq

/-- An error with its accumulated stack trace (`error::LocError`, which is a
boxed pair of an `Error` and a `StackTrace`).  `LocError::new(e)` has an
empty trace; frames are appended at the end of the list on unwind. -/
structure LocError where
  error : Error
  trace : List StackTraceElement
  deriving DecidableEq

/-- Binding context.  Modelled from the spec: src/crates/jrsonnet-evaluator/src/ctx.rs
is not in the analyzed slice.  A context maps identifiers to thunks (thunks are
opaque shared cells, identified here by handles) and optionally carries the
current `self` and `super` objects (object handles). -/
structure Context where
  bindings : List (IStr × Nat)
  self_obj : Option Nat
  super_obj : Option Nat
  deriving DecidableEq

/-- `Context::default()`: no bindings, no `self`, no `super`. -/
def Context.default : Context := ⟨[], none, none⟩

/-- Function defined in jsonnet code (`function::FuncDesc`): name, captured
context, parameter list (each with an optional default expression), body. -/
structure FuncDesc where
  name : IStr
  ctx : Context
  params : List (IStr × Option LocExpr)
  body : LocExpr
  deriving DecidableEq

/-- Jsonnet function value (`function::FuncVal`).  The `dyn StaticBuiltin` /
`dyn Builtin` trait objects are opaque to this slice and are modelled by
handles; their behavior is supplied by a `FuncInterp` at evaluation time. -/
inductive FuncVal where
  | Id
  | Normal (desc : FuncDesc)
  | StaticBuiltin (b : Nat)
  | Builtin (b : Nat)
  deriving DecidableEq

/-- `FuncVal::is_identity`: holds only for the `Id` variant. -/
def FuncVal.is_identity : FuncVal → Bool
  | FuncVal.Id => true
  | _ => false

/-- `FuncVal::identity()`. -/
def FuncVal.identity : FuncVal := FuncVal.Id

/-- Value model (`val::Val`).  val.rs is not in the analyzed slice; the
variants are modelled from the spec: primitives, interned string, array of
element thunks (opaque handles), object (opaque handle), function.  Numbers
are `f64` in the source; no analyzed claim exercises numeric arithmetic, so
they are modelled as integers. -/
inductive Val where
  | null
  | bool (b : Bool)
  | num (n : Int)
  | str (s : IStr)
  | arr (elems : List Nat)
  | obj (o : Nat)
  | func (f : FuncVal)
  deriving DecidableEq

/-- Top-level argument (`function::arglike::TlaArg`): a value, a string, or
parsed code. -/
inductive TlaArg where
  | Val (v : Val)
  | String (s : IStr)
  | Code (code : LocExpr)
  deriving DecidableEq

/-- Call-site arguments (`ArgsLike`): positional arguments in order plus
named arguments. -/
structure Args where
  positional : List TlaArg
  named : List (IStr × TlaArg)
  deriving DecidableEq

/-- Modelled from the spec: the `ArgsLike` impl for `HashMap<IStr, TlaArg>`
(function/arglike.rs is not in the analyzed slice) supplies TLAs as named
arguments only. -/
def Args.ofTlaVars (tla_vars : List (IStr × TlaArg)) : Args :=
  ⟨[], tla_vars⟩

/-- Manifest format (`val::ManifestFormat`).  val.rs is not in the analyzed
slice; modelled from the spec, which needs only the JSON variant with its
numeric padding width besides the existence of other formats. -/
inductive ManifestFormat where
  | Json (padding : Nat)
  | Yaml (padding : Nat)
  | StringFmt
  deriving DecidableEq

/-- First-match lookup in an association list (models `HashMap` lookup: keys
are unique, and all modelled updates preserve that). -/
def lookupAssoc {κ ν : Type} [DecidableEq κ] : List (κ × ν) → κ → Option ν
  | [], _ => none
  | (k', v') :: t, k => if k' = k then some v' else lookupAssoc t k

/-- Replace the binding of a key, or append it if absent (models `HashMap`
insertion through a raw entry). -/
def updateAssoc {κ ν : Type} [DecidableEq κ] : List (κ × ν) → κ → ν → List (κ × ν)
  | [], k, v => [(k, v)]
  | (k', v') :: t, k, v => if k' = k then (k, v) :: t else (k', v') :: updateAssoc t k v

/-- Per-`Source` file cache entry (`FileData`): four monotone memos plus the
cycle-detection flag. -/
structure FileData where
  string : Option IStr
  bytes : Option IBytes
  parsed : Option LocExpr
  evaluated : Option Val
  evaluating : Bool
  deriving DecidableEq

/-- `FileData::new_string`. -/
def FileData.new_string (data : IStr) : FileData :=
  ⟨some data, none, none, none, false⟩

/-- `FileData::new_bytes`. -/
def FileData.new_bytes (data : IBytes) : FileData :=
  ⟨none, some data, none, none, false⟩

deriving instance DecidableEq for Except

/-- A single breakpoint (`Breakpoint`): a source range plus, per
`stack_generation`, a recorded depth and the list of collected results. -/
structure Breakpoint where
  loc : ExprLocation
  collected : List (Nat × Nat × List (Except LocError Val))
  deriving DecidableEq

/-- Mutable evaluation data owned by the `State` (`EvaluationData`). -/
structure EvaluationData where
  stack_depth : Nat
  stack_generation : Nat
  breakpoints : List Breakpoint
  files : List (SourcePath × FileData)
  deriving DecidableEq

/-- Dynamically reconfigurable evaluation settings (`EvaluationSettings`).
`context_initializer` and `import_resolver` are trait objects; they are
modelled by their one relevant method each (`trace_format` is render-only
and never consulted by the analyzed operations, so it is omitted). -/
structure EvaluationSettings where
  max_stack : Nat
  max_trace : Nat
  tla_vars : List (IStr × TlaArg)
  context_initializer : Source → Context
  load_file_contents : SourcePath → Except LocError IBytes
  manifest_format : ManifestFormat

/-- Modelled from the spec: `DummyImportResolver` (import.rs is not in the
analyzed slice) supports no imports, so loading any file contents fails. -/
def DummyImportResolver.load_file_contents (path : SourcePath) : Except LocError IBytes :=
  Except.error ⟨Error.ResolvedFileNotFound path, []⟩

/-- `EvaluationSettings::default()`: `max_stack` 200, `max_trace` 20, no
TLAs, the dummy context initializer (which returns `Context::default()`),
the dummy import resolver, JSON manifest format with padding 4. -/
def EvaluationSettings.default : EvaluationSettings where
  max_stack := 200
  max_trace := 20
  tla_vars := []
  context_initializer := fun _ => Context.default
  load_file_contents := DummyImportResolver.load_file_contents
  manifest_format := ManifestFormat.Json 4

/-- External pure helpers used by the cache operations: UTF-8 decoding
(`std::str::from_utf8` / `IBytes::cast_str`), UTF-8 encoding
(`IStr::cast_bytes`), and the parser (`jrsonnet_parser::parse`; its error
type is opaque here). -/
structure ExtFns where
  utf8 : IBytes → Option IStr
  cast_bytes : IStr → IBytes
  parse : IStr → Source → Except Nat LocExpr

/-- Result of a state-threading operation that may also panic (`expect` /
`unreachable!`), carrying the panic message in that case. -/
inductive Outcome (α : Type) where
  | ok (v : α) (st : EvaluationData)
  | err (e : LocError) (st : EvaluationData)
  | panic (msg : String)
  deriving DecidableEq

/-- The evaluation data an operation finished with, when it did not panic. -/
def Outcome.stateOf {α : Type} : Outcome α → Option EvaluationData
  | Outcome.ok _ st => some st
  | Outcome.err _ st => some st
  | Outcome.panic _ => none

/-- Bucket update performed by `Breakpoints::insert` on one matching
breakpoint: `collected.entry(stack_generation).or_default()` yields the
recorded depth and collected values (`(0, [])` for a fresh generation); if
the current depth is strictly greater than the recorded depth the values
are cleared; then the result is pushed.  The recorded depth itself is never
reassigned. -/
def Breakpoints.collect (stack_depth stack_generation : Nat)
    (result : Except LocError Val)
    (collected : List (Nat × Nat × List (Except LocError Val))) :
    List (Nat × Nat × List (Except LocError Val)) :=
  match lookupAssoc collected stack_generation with
  | none => updateAssoc collected stack_generation (0, [result])
  | some (dep, vals) =>
    updateAssoc collected stack_generation
      (dep, (if stack_depth > dep then [] else vals) ++ [result])

/-- `Breakpoints::insert`: if there are no breakpoints, return the result;
otherwise record the (cloned) result in every breakpoint covering the
completed expression's location, and return the result unchanged.  The
location-coverage test `ExprLocation::belongs_to` lives in the external
parser crate and is passed in as `covers`. -/
def Breakpoints.insert (covers : ExprLocation → ExprLocation → Bool)
    (bps : List Breakpoint) (stack_depth stack_generation : Nat)
    (loc : ExprLocation) (result : Except LocError Val) :
    Except LocError Val × List Breakpoint :=
  if bps.isEmpty then (result, bps)
  else
    (result,
      bps.map fun item =>
        if covers item.loc loc then
          { item with
            collected := Breakpoints.collect stack_depth stack_generation result item.collected }
        else item)

/-- `State::push`: executes `f` under a new stack frame.  If the current
depth already exceeds `max_stack`, fails with `StackOverflow` without
running `f`; otherwise increments the depth, runs `f`, then decrements the
depth and increments the generation; if `f` returned an error, appends one
`StackTraceElement` with the frame's call location and description. -/
def State.push {α : Type} (max_stack : Nat) (e : CallLocation) (frame_desc : String)
    (f : EvaluationData → Except LocError α × EvaluationData)
    (st : EvaluationData) : Except LocError α × EvaluationData :=
  if st.stack_depth > max_stack then (Except.error ⟨Error.StackOverflow, []⟩, st)
  else
    match f { st with stack_depth := st.stack_depth + 1 } with
    | (Except.error err, st2) =>
      (Except.error { err with trace := err.trace ++ [⟨e, frame_desc⟩] },
        { st2 with
            stack_depth := st2.stack_depth - 1,
            stack_generation := st2.stack_generation + 1 })
    | (Except.ok v, st2) =>
      (Except.ok v,
        { st2 with
            stack_depth := st2.stack_depth - 1,
            stack_generation := st2.stack_generation + 1 })

/-- `State::push_val`: like `State::push` for a known expression location,
but additionally routes the result through `Breakpoints::insert` (with the
already-decremented depth and already-incremented generation) before the
error-trace handling. -/
def State.push_val (max_stack : Nat) (covers : ExprLocation → ExprLocation → Bool)
    (e : ExprLocation) (frame_desc : String)
    (f : EvaluationData → Except LocError Val × EvaluationData)
    (st : EvaluationData) : Except LocError Val × EvaluationData :=
  if st.stack_depth > max_stack then (Except.error ⟨Error.StackOverflow, []⟩, st)
  else
    match f { st with stack_depth := st.stack_depth + 1 } with
    | (res, st2) =>
      match Breakpoints.insert covers st2.breakpoints (st2.stack_depth - 1)
          (st2.stack_generation + 1) e res with
      | (Except.error err, bps2) =>
        (Except.error { err with trace := err.trace ++ [⟨some e, frame_desc⟩] },
          { st2 with
              stack_depth := st2.stack_depth - 1,
              stack_generation := st2.stack_generation + 1,
              breakpoints := bps2 })
      | (Except.ok v, bps2) =>
        (Except.ok v,
          { st2 with
              stack_depth := st2.stack_depth - 1,
              stack_generation := st2.stack_generation + 1,
              breakpoints := bps2 })

/-- `State::push_description`: like `State::push`, but the appended trace
frame has no location. -/
def State.push_description {α : Type} (max_stack : Nat) (frame_desc : String)
    (f : EvaluationData → Except LocError α × EvaluationData)
    (st : EvaluationData) : Except LocError α × EvaluationData :=
  if st.stack_depth > max_stack then (Except.error ⟨Error.StackOverflow, []⟩, st)
  else
    match f { st with stack_depth := st.stack_depth + 1 } with
    | (Except.error err, st2) =>
      (Except.error { err with trace := err.trace ++ [⟨none, frame_desc⟩] },
        { st2 with
            stack_depth := st2.stack_depth - 1,
            stack_generation := st2.stack_generation + 1 })
    | (Except.ok v, st2) =>
      (Except.ok v,
        { st2 with
            stack_depth := st2.stack_depth - 1,
            stack_generation := st2.stack_generation + 1 })

/-- `k` nested `State::push` frames (the innermost computation returns `0`):
non-tail recursion of depth `k`, used to settle the stack-limit claim. -/
def nested_push (max_stack : Nat) : Nat → EvaluationData → Except LocError Nat × EvaluationData
  | 0, st => (Except.ok 0, st)
  | k + 1, st => State.push max_stack CallLocation.native "recursive step"
      (nested_push max_stack k) st

/-- `State::import_resolved_str`: ensure the cache entry exists (loading and
UTF-8-decoding the file on a vacant entry), then return the string memo,
deriving it from the bytes memo if needed.  Both `std::str::from_utf8` and
`IBytes::cast_str` are modelled by `ext.utf8`. -/
def State.import_resolved_str (settings : EvaluationSettings) (ext : ExtFns)
    (path : SourcePath) (st : EvaluationData) : Outcome IStr :=
  match lookupAssoc st.files path with
  | none =>
    match settings.load_file_contents path with
    | Except.error e => Outcome.err e st
    | Except.ok data =>
      match ext.utf8 data with
      | none => Outcome.err ⟨Error.ImportBadFileUtf8 path, []⟩ st
      | some s =>
        Outcome.ok s
          { st with files := updateAssoc st.files path (FileData.new_string s) }
  | some file =>
    match file.string with
    | some s => Outcome.ok s st
    | none =>
      match file.bytes with
      | none => Outcome.panic "either string or bytes should be set"
      | some bs =>
        match ext.utf8 bs with
        | none => Outcome.err ⟨Error.ImportBadFileUtf8 path, []⟩ st
        | some s =>
          Outcome.ok s
            { st with files := updateAssoc st.files path { file with string := some s } }

/-- `State::import_resolved_bin`: ensure the cache entry exists (loading the
raw bytes on a vacant entry), then return the bytes memo, deriving it from
the string memo (`IStr::cast_bytes`, lossless) if needed. -/
def State.import_resolved_bin (settings : EvaluationSettings) (ext : ExtFns)
    (path : SourcePath) (st : EvaluationData) : Outcome IBytes :=
  match lookupAssoc st.files path with
  | none =>
    match settings.load_file_contents path with
    | Except.error e => Outcome.err e st
    | Except.ok data =>
      Outcome.ok data
        { st with files := updateAssoc st.files path (FileData.new_bytes data) }
  | some file =>
    match file.bytes with
    | some bs => Outcome.ok bs st
    | none =>
      match file.string with
      | none => Outcome.panic "either string or bytes should be set"
      | some s =>
        Outcome.ok (ext.cast_bytes s)
          { st with files :=
            updateAssoc st.files path { file with bytes := some (ext.cast_bytes s) } }

/-- The signature of the external expression evaluator `evaluate(state, ctx,
expr)` (evaluate.rs is not in the analyzed slice): it may read and mutate
the whole evaluation data, including the file cache. -/
abbrev EvalFn := Context → LocExpr → EvaluationData → Except LocError Val × EvaluationData

/-- Tail of `State::import_resolved`, after the string and parsed memos are
ensured: if the entry is already being evaluated, fail with
`InfiniteRecursionDetected`; otherwise set `evaluating`, drop the borrow,
run the evaluator, re-acquire the entry (`unreachable!` if it vanished),
clear `evaluating`, and on success store the `evaluated` memo. -/
def State.import_resolved_eval_stage (settings : EvaluationSettings) (eval : EvalFn)
    (path : SourcePath) (st : EvaluationData) (file : FileData)
    (parsed : LocExpr) (file_name : Source) : Outcome Val :=
  if file.evaluating then Outcome.err ⟨Error.InfiniteRecursionDetected, []⟩ st
  else
    match eval (settings.context_initializer file_name) parsed
        { st with files := updateAssoc st.files path { file with evaluating := true } } with
    | (res, st2) =>
      match lookupAssoc st2.files path with
      | none => Outcome.panic "this file was just here!"
      | some file2 =>
        match res with
        | Except.ok v =>
          Outcome.ok v
            { st2 with
                files :=
                  updateAssoc
                    (updateAssoc st2.files path { file2 with evaluating := false })
                    path { file2 with evaluating := false, evaluated := some v } }
        | Except.error e =>
          Outcome.err e
            { st2 with files := updateAssoc st2.files path { file2 with evaluating := false } }

/-- Middle of `State::import_resolved`: ensure the parsed memo (parse errors
are wrapped in `ImportSyntaxError` and do not touch the entry), then run the
evaluation stage. -/
def State.import_resolved_parse_stage (settings : EvaluationSettings) (ext : ExtFns)
    (eval : EvalFn) (path : SourcePath) (st : EvaluationData) (file : FileData)
    (code : IStr) : Outcome Val :=
  match file.parsed with
  | some p => State.import_resolved_eval_stage settings eval path st file p ⟨path, code⟩
  | none =>
    match ext.parse code ⟨path, code⟩ with
    | Except.error pe => Outcome.err ⟨Error.ImportSyntaxError ⟨path, code⟩ pe, []⟩ st
    | Except.ok p =>
      State.import_resolved_eval_stage settings eval path
        { st with files := updateAssoc st.files path { file with parsed := some p } }
        { file with parsed := some p } p ⟨path, code⟩

/-- Head of the occupied-entry logic of `State::import_resolved`: return the
`evaluated` memo if present, otherwise ensure the string memo (from the
bytes memo; `expect` panics if both are absent) and continue. -/
def State.import_resolved_occ_stage (settings : EvaluationSettings) (ext : ExtFns)
    (eval : EvalFn) (path : SourcePath) (st : EvaluationData) (file : FileData) :
    Outcome Val :=
  match file.evaluated with
  | some v => Outcome.ok v st
  | none =>
    match file.string with
    | some code => State.import_resolved_parse_stage settings ext eval path st file code
    | none =>
      match file.bytes with
      | none => Outcome.panic "either string or bytes should be set"
      | some bs =>
        match ext.utf8 bs with
        | none => Outcome.err ⟨Error.ImportBadFileUtf8 path, []⟩ st
        | some code =>
          State.import_resolved_parse_stage settings ext eval path
            { st with files := updateAssoc st.files path { file with string := some code } }
            { file with string := some code } code

/-- `State::import_resolved`: on a vacant entry, load and UTF-8-decode the
file contents and insert a fresh string entry; then run the occupied-entry
logic (memo checks, cycle detection, evaluation). -/
def State.import_resolved (settings : EvaluationSettings) (ext : ExtFns)
    (eval : EvalFn) (path : SourcePath) (st : EvaluationData) : Outcome Val :=
  match lookupAssoc st.files path with
  | some file => State.import_resolved_occ_stage settings ext eval path st file
  | none =>
    match settings.load_file_contents path with
    | Except.error e => Outcome.err e st
    | Except.ok data =>
      match ext.utf8 data with
      | none => Outcome.err ⟨Error.ImportBadFileUtf8 path, []⟩ st
      | some s =>
        State.import_resolved_occ_stage settings ext eval path
          { st with files := updateAssoc st.files path (FileData.new_string s) }
          (FileData.new_string s)

/-- Behaviors of the parts of function calling that live outside the
analyzed slice: evaluation of a plain jsonnet function body after argument
binding (`FuncDesc::call_body_context` + `evaluate`), a builtin trait
object's `call`, and evaluation of a `TlaArg::Code` AST. -/
structure FuncInterp where
  normalCall : FuncDesc → Context → Args → Bool → EvaluationData →
    Except LocError Val × EvaluationData
  builtinCall : Nat → Context → CallLocation → Args → EvaluationData →
    Except LocError Val × EvaluationData
  evalCode : LocExpr → EvaluationData → Except LocError Val × EvaluationData

/-- Modelled from the spec: forcing one bound argument (function/arglike.rs
is not in the analyzed slice).  A `Val` TLA yields the value itself, a
`String` TLA a string value, and a `Code` TLA evaluates its AST. -/
def forceTlaArg (interp : FuncInterp) (a : TlaArg) (st : EvaluationData) :
    Except LocError Val × EvaluationData :=
  match a with
  | TlaArg.Val v => (Except.ok v, st)
  | TlaArg.String s => (Except.ok (Val.str s), st)
  | TlaArg.Code code => interp.evalCode code st

/-- Modelled from the spec: argument binding (the binding protocol of the
spec) for the generated one-parameter builtin `builtin_id` with parameter
list `(v)` (the `#[builtin]` macro expansion and function/parse.rs are not
in the analyzed slice), followed by `Ok(v)`: the identity builtin returns
its single bound argument. -/
def builtin_id_call (interp : FuncInterp) (args : Args) (st : EvaluationData) :
    Except LocError Val × EvaluationData :=
  match args.positional with
  | _ :: _ :: _ =>
    (Except.error ⟨Error.TooManyArgsFunctionHas 1 [(some "v", false)], []⟩, st)
  | [a] =>
    match args.named.find? (fun kv => kv.1 ≠ "v") with
    | some kv => (Except.error ⟨Error.UnknownFunctionParameter kv.1, []⟩, st)
    | none =>
      match lookupAssoc args.named "v" with
      | some _ => (Except.error ⟨Error.BindingParameterASecondTime "v", []⟩, st)
      | none => forceTlaArg interp a st
  | [] =>
    match args.named.find? (fun kv => kv.1 ≠ "v") with
    | some kv => (Except.error ⟨Error.UnknownFunctionParameter kv.1, []⟩, st)
    | none =>
      match lookupAssoc args.named "v" with
      | some a => forceTlaArg interp a st
      | none =>
        (Except.error
          ⟨Error.FunctionParameterNotBoundInCall (some "v") [(some "v", false)], []⟩, st)

/-- `FuncVal::evaluate`: the `Id` variant calls the generated identity
builtin; a `Normal` function binds arguments and evaluates its body; a
builtin dispatches to its trait object's `call`. -/
def FuncVal.evaluate (interp : FuncInterp) (f : FuncVal) (call_ctx : Context)
    (loc : CallLocation) (args : Args) (tailstrict : Bool) (st : EvaluationData) :
    Except LocError Val × EvaluationData :=
  match f with
  | FuncVal.Id => builtin_id_call interp args st
  | FuncVal.Normal desc => interp.normalCall desc call_ctx args tailstrict st
  | FuncVal.StaticBuiltin b => interp.builtinCall b call_ctx loc args st
  | FuncVal.Builtin b => interp.builtinCall b call_ctx loc args st

/-- `State::with_tla`: if the value is a function, call it under a
"during TLA call" description frame, with the default context of the
virtual `<tla>` source, a native call location, the settings' TLA variables
as (named) arguments, and `tailstrict`; any other value is returned
unchanged. -/
def State.with_tla (settings : EvaluationSettings) (interp : FuncInterp)
    (val : Val) (st : EvaluationData) : Except LocError Val × EvaluationData :=
  match val with
  | Val.func f =>
    State.push_description settings.max_stack "during TLA call"
      (fun s => FuncVal.evaluate interp f
        (settings.context_initializer (Source.new_virtual "<tla>" ""))
        CallLocation.native (Args.ofTlaVars settings.tla_vars) true s)
      st
  | v => (Except.ok v, st)

/-- `Val::try_cast_str` (val.rs is not in the analyzed slice; modelled from
its use here): succeeds exactly on string values. -/
def try_cast_str : Val → Option IStr
  | Val.str s => some s
  | _ => none

/-- The argument vector the native bridge hands to the C callback: one
pointer per argument, in order, followed by a terminating null. -/
def marshal_args (args : List Val) : List (Option Val) :=
  args.map some ++ [none]

/-- Result of one native callback invocation: a value, an error, or a
bridge panic (`expect("error msg")`). -/
inductive CallOutcome where
  | ok (v : Val)
  | err (e : LocError)
  | panic (msg : String)
  deriving DecidableEq

/-- `JsonnetNativeCallbackHandler::call` (bindings/jsonnet/src/native.rs):
marshal the already-forced argument values in order, invoke the C callback
with a success flag initialized to 1, and if the final flag is 1 return the
callback's value, otherwise cast the returned payload to a string and fail
with `RuntimeError` carrying it (the bridge panics if the payload is not a
string).  The callback is modelled as a function from the marshalled
argument vector to the final flag value and the returned value. -/
def JsonnetNativeCallbackHandler.call (cb : List (Option Val) → Int × Val)
    (args : List Val) : CallOutcome :=
  let r := cb (marshal_args args)
  if r.1 = 1 then CallOutcome.ok r.2
  else
    match try_cast_str r.2 with
    | some e => CallOutcome.err ⟨Error.RuntimeError e, []⟩
    | none => CallOutcome.panic "error msg"

/-- Ordering on memo fields: once set, a memo stays set at the same value. -/
def OptionLe {α : Type} (a b : Option α) : Prop :=
  ∀ x, a = some x → b = some x

/-- Memo-monotonicity between two states of one cache entry: each of the
four memos of the first is preserved in the second. -/
def FileData.le (f g : FileData) : Prop :=
  OptionLe f.string g.string ∧ OptionLe f.bytes g.bytes ∧
    OptionLe f.parsed g.parsed ∧ OptionLe f.evaluated g.evaluated

/-- Memo-monotonicity of the whole file cache: every entry survives with
all its memos intact. -/
def FilesMono (st st' : EvaluationData) : Prop :=
  ∀ p fd, lookupAssoc st.files p = some fd →
    ∃ fd', lookupAssoc st'.files p = some fd' ∧ FileData.le fd fd'

/-- The constructor guarantee of `FileData`: at least one of the string and
bytes memos is set. -/
def FileData.sb (fd : FileData) : Prop :=
  fd.string.isSome = true ∨ fd.bytes.isSome = true

/-- Cache invariant: every stored entry has its string or bytes memo set. -/
def CacheInv (st : EvaluationData) : Prop :=
  ∀ p fd, lookupAssoc st.files p = some fd → FileData.sb fd

/-- Fixture: external helpers for concrete witnesses. -/
def ext0 : ExtFns :=
  ⟨fun _ => none, fun _ => [], fun _ _ => Except.error 0⟩

/-- Fixture: a function interpreter whose behaviors all return `null`. -/
def interp0 : FuncInterp :=
  ⟨fun _ _ _ _ st => (Except.ok Val.null, st),
   fun _ _ _ _ st => (Except.ok Val.null, st),
   fun _ st => (Except.ok Val.null, st)⟩

/-- Fixture: an evaluator that returns `null` and leaves the state alone. -/
def eval0 : EvalFn := fun _ _ st => (Except.ok Val.null, st)

/-- Fixture: empty evaluation data. -/
def st_empty : EvaluationData := ⟨0, 0, [], []⟩

/-- Fixture: a concrete source path. -/
def p0 : SourcePath := SourcePath.virt "a"

/-- Fixture: a cache entry with string and parsed memos set, not yet
evaluated. -/
def fd0 : FileData := ⟨some "null", none, some ⟨0⟩, none, false⟩

/-- Fixture: evaluation data holding exactly the entry `fd0` at `p0`. -/
def st_one : EvaluationData := ⟨0, 0, [], [(p0, fd0)]⟩

/-- Fixture: a concrete expression location. -/
def loc0 : ExprLocation := ⟨⟨p0, ""⟩, 0, 1⟩


/-- Fixture: an inner computation that fails with a runtime error and leaves
the state unchanged. -/
def f_err0 : EvaluationData → Except LocError Val × EvaluationData :=
  fun s => (Except.error ⟨Error.RuntimeError "boom", []⟩, s)

/-- Fixture: a breakpoint at `loc0` with nothing collected yet. -/
def bp0 : Breakpoint := ⟨loc0, []⟩

/-- Fixture: default settings whose import resolver returns one byte. -/
def settings1 : EvaluationSettings :=
  { EvaluationSettings.default with load_file_contents := fun _ => Except.ok [104] }

/-- Fixture: external helpers that decode every byte buffer to `"h"`. -/
def ext1 : ExtFns :=
  ⟨fun _ => some "h", fun _ => [104], fun _ _ => Except.error 0⟩

/-- Fixture: a native callback that leaves the success flag set. -/
def cb_ok0 : List (Option Val) → Int × Val := fun _ => (1, Val.null)

/-- Fixture: a native callback that clears the success flag and returns a
string payload. -/
def cb_err0 : List (Option Val) → Int × Val := fun _ => (0, Val.str "bad")
theorem lookupAssoc_updateAssoc_self {κ ν : Type} [DecidableEq κ]
    (l : List (κ × ν)) (k : κ) (v : ν) :
    lookupAssoc (updateAssoc l k v) k = some v := by
  induction l with
  | nil => simp [lookupAssoc, updateAssoc]
  | cons h t ih =>
    obtain ⟨k', v'⟩ := h
    by_cases hk : k' = k
    · simp [lookupAssoc, updateAssoc, hk]
    · simp [lookupAssoc, updateAssoc, hk, ih]

theorem lookupAssoc_updateAssoc_ne {κ ν : Type} [DecidableEq κ]
    (l : List (κ × ν)) (k k'' : κ) (v : ν) (h : k'' ≠ k) :
    lookupAssoc (updateAssoc l k v) k'' = lookupAssoc l k'' := by
  induction l with
  | nil =>
    have hne : ¬ k = k'' := fun hc => h hc.symm
    simp [lookupAssoc, updateAssoc, hne]
  | cons hd t ih =>
    obtain ⟨k', v'⟩ := hd
    by_cases hk : k' = k
    · subst hk
      have hne : ¬ (k' = k'') := fun hc => h hc.symm
      simp [lookupAssoc, updateAssoc, hne, Ne.symm hne]
    · by_cases hk2 : k' = k''
      · subst hk2
        simp [lookupAssoc, updateAssoc, hk]
      · simp [lookupAssoc, updateAssoc, hk, hk2, ih]

theorem updateAssoc_updateAssoc {κ ν : Type} [DecidableEq κ]
    (l : List (κ × ν)) (k : κ) (a b : ν) :
    updateAssoc (updateAssoc l k a) k b = updateAssoc l k b := by
  induction l with
  | nil => simp [updateAssoc]
  | cons hd t ih =>
    obtain ⟨k', v'⟩ := hd
    by_cases hk : k' = k
    · simp [updateAssoc, hk]
    · simp [updateAssoc, hk, ih]

theorem optionLe_refl {α : Type} (a : Option α) : OptionLe a a :=
  fun _ h => h

theorem optionLe_trans {α : Type} {a b c : Option α}
    (h1 : OptionLe a b) (h2 : OptionLe b c) : OptionLe a c :=
  fun x h => h2 x (h1 x h)

theorem OptionLe.of_none {α : Type} {a : Option α} (h : a = none) (b : Option α) :
    OptionLe a b := by
  intro x hx
  rw [h] at hx
  exact absurd hx (by simp)

theorem FileData.le_refl (fd : FileData) : FileData.le fd fd :=
  ⟨optionLe_refl _, optionLe_refl _, optionLe_refl _, optionLe_refl _⟩

theorem FileData.le_trans {a b c : FileData}
    (h1 : FileData.le a b) (h2 : FileData.le b c) : FileData.le a c :=
  ⟨optionLe_trans h1.1 h2.1, optionLe_trans h1.2.1 h2.2.1,
    optionLe_trans h1.2.2.1 h2.2.2.1, optionLe_trans h1.2.2.2 h2.2.2.2⟩

theorem filesMono_refl (st : EvaluationData) : FilesMono st st :=
  fun _ fd h => ⟨fd, h, FileData.le_refl fd⟩

theorem filesMono_trans {a b c : EvaluationData}
    (h1 : FilesMono a b) (h2 : FilesMono b c) : FilesMono a c := by
  intro p fd h
  obtain ⟨fd1, hl1, hle1⟩ := h1 p fd h
  obtain ⟨fd2, hl2, hle2⟩ := h2 p fd1 hl1
  exact ⟨fd2, hl2, FileData.le_trans hle1 hle2⟩

theorem FilesMono.update_present {st : EvaluationData} {p : SourcePath}
    {fd fd' : FileData} (hl : lookupAssoc st.files p = some fd)
    (hle : FileData.le fd fd') (rest : EvaluationData) :
    FilesMono st { rest with files := updateAssoc st.files p fd' } := by
  intro q fdq hq
  by_cases hqp : q = p
  · subst hqp
    rw [hq] at hl
    obtain rfl : fdq = fd := by injection hl
    exact ⟨fd', by simpa using lookupAssoc_updateAssoc_self st.files q fd', hle⟩
  · exact ⟨fdq, by simpa using (lookupAssoc_updateAssoc_ne st.files p q fd' hqp).trans hq,
      FileData.le_refl fdq⟩

theorem FilesMono.update_new {st : EvaluationData} {p : SourcePath}
    (hl : lookupAssoc st.files p = none) (fd' : FileData) (rest : EvaluationData) :
    FilesMono st { rest with files := updateAssoc st.files p fd' } := by
  intro q fdq hq
  by_cases hqp : q = p
  · subst hqp
    rw [hq] at hl
    exact absurd hl (by simp)
  · exact ⟨fdq, by simpa using (lookupAssoc_updateAssoc_ne st.files p q fd' hqp).trans hq,
      FileData.le_refl fdq⟩

theorem CacheInv.update {st : EvaluationData} {p : SourcePath} {fd : FileData}
    (hinv : CacheInv st) (hsb : FileData.sb fd) (rest : EvaluationData) :
    CacheInv { rest with files := updateAssoc st.files p fd } := by
  intro q fdq hq
  by_cases hqp : q = p
  · subst hqp
    rw [show ({ rest with files := updateAssoc st.files q fd } : EvaluationData).files
        = updateAssoc st.files q fd from rfl,
      lookupAssoc_updateAssoc_self] at hq
    have heq : fd = fdq := by injection hq
    subst heq
    exact hsb
  · rw [show ({ rest with files := updateAssoc st.files p fd } : EvaluationData).files
        = updateAssoc st.files p fd from rfl,
      lookupAssoc_updateAssoc_ne st.files p q fd hqp] at hq
    exact hinv q fdq hq

theorem Breakpoints.insert_fst (covers : ExprLocation → ExprLocation → Bool)
    (bps : List Breakpoint) (stack_depth stack_generation : Nat)
    (loc : ExprLocation) (result : Except LocError Val) :
    (Breakpoints.insert covers bps stack_depth stack_generation loc result).1 = result := by
  unfold Breakpoints.insert
  by_cases h : bps.isEmpty <;> simp [h]

theorem FileData.le_same_memos {f g : FileData} (h1 : g.string = f.string)
    (h2 : g.bytes = f.bytes) (h3 : g.parsed = f.parsed) (h4 : g.evaluated = f.evaluated) :
    FileData.le f g :=
  ⟨fun _ hx => h1 ▸ hx, fun _ hx => h2 ▸ hx, fun _ hx => h3 ▸ hx, fun _ hx => h4 ▸ hx⟩

theorem import_resolved_eval_stage_mono
    (settings : EvaluationSettings) (eval : EvalFn) (path : SourcePath)
    (st : EvaluationData) (file : FileData) (parsed : LocExpr) (file_name : Source)
    (hl : lookupAssoc st.files path = some file)
    (hfe : file.evaluated = none)
    (hmono : ∀ c e s, FilesMono s (eval c e s).2)
    (hkeep : ∀ c e s fdp, lookupAssoc s.files path = some fdp → fdp.evaluated = none →
        ∀ fdp2, lookupAssoc (eval c e s).2.files path = some fdp2 → fdp2.evaluated = none)
    {st' : EvaluationData}
    (hres : (State.import_resolved_eval_stage settings eval path st file parsed
        file_name).stateOf = some st') :
    FilesMono st st' := by
  have hle1 : FileData.le file { file with evaluating := true } :=
    ⟨fun _ hx => hx, fun _ hx => hx, fun _ hx => hx, fun _ hx => hx⟩
  have hl1 : lookupAssoc
      (updateAssoc st.files path { file with evaluating := true }) path
      = some { file with evaluating := true } :=
    lookupAssoc_updateAssoc_self st.files path { file with evaluating := true }
  unfold State.import_resolved_eval_stage at hres
  split at hres
  · simp only [Outcome.stateOf] at hres
    obtain rfl : st = st' := by injection hres
    exact filesMono_refl st
  · split at hres
    next res st2 heval =>
      have h1 : FilesMono st
          { st with files := updateAssoc st.files path { file with evaluating := true } } :=
        FilesMono.update_present hl hle1 st
      have h2 : FilesMono
          ({ st with files := updateAssoc st.files path { file with evaluating := true } }
            : EvaluationData) st2 := by
        have := hmono (settings.context_initializer file_name) parsed
          { st with files := updateAssoc st.files path { file with evaluating := true } }
        rwa [heval] at this
      split at hres
      next =>
        simp [Outcome.stateOf] at hres
      next file2 hlk =>
        have hfe2 : file2.evaluated = none := by
          refine hkeep (settings.context_initializer file_name) parsed
            { st with files := updateAssoc st.files path { file with evaluating := true } }
            { file with evaluating := true } hl1 hfe file2 ?_
          rw [heval]
          exact hlk
        have hle3 : FileData.le file2 ({ file2 with evaluating := false } : FileData) :=
          ⟨fun _ hx => hx, fun _ hx => hx, fun _ hx => hx, fun _ hx => hx⟩
        have h3 : FilesMono st2
            { st2 with files := updateAssoc st2.files path { file2 with evaluating := false } } :=
          FilesMono.update_present hlk hle3 st2
        split at hres
        next _r v =>
          simp only [Outcome.stateOf] at hres
          obtain rfl := Option.some.inj hres
          refine filesMono_trans (filesMono_trans (filesMono_trans h1 h2) h3) ?_
          have hl3 : lookupAssoc
              (updateAssoc st2.files path { file2 with evaluating := false }) path
              = some ({ file2 with evaluating := false } : FileData) :=
            lookupAssoc_updateAssoc_self st2.files path { file2 with evaluating := false }
          have hle4 : FileData.le ({ file2 with evaluating := false } : FileData)
              { file2 with evaluating := false, evaluated := some v } :=
            ⟨fun _ hx => hx, fun _ hx => hx, fun _ hx => hx, OptionLe.of_none hfe2 _⟩
          exact FilesMono.update_present hl3 hle4 _
        next _r e =>
          simp only [Outcome.stateOf] at hres
          obtain rfl := Option.some.inj hres
          exact filesMono_trans (filesMono_trans h1 h2) h3

theorem import_resolved_parse_stage_mono
    (settings : EvaluationSettings) (ext : ExtFns) (eval : EvalFn) (path : SourcePath)
    (st : EvaluationData) (file : FileData) (code : IStr)
    (hl : lookupAssoc st.files path = some file)
    (hfe : file.evaluated = none)
    (hmono : ∀ c e s, FilesMono s (eval c e s).2)
    (hkeep : ∀ c e s fdp, lookupAssoc s.files path = some fdp → fdp.evaluated = none →
        ∀ fdp2, lookupAssoc (eval c e s).2.files path = some fdp2 → fdp2.evaluated = none)
    {st' : EvaluationData}
    (hres : (State.import_resolved_parse_stage settings ext eval path st file
        code).stateOf = some st') :
    FilesMono st st' := by
  unfold State.import_resolved_parse_stage at hres
  split at hres
  next p hp =>
    exact import_resolved_eval_stage_mono settings eval path st file p ⟨path, code⟩
      hl hfe hmono hkeep hres
  next hp =>
    split at hres
    next pe hpe =>
      simp only [Outcome.stateOf] at hres
      obtain rfl := Option.some.inj hres
      exact filesMono_refl st
    next p hpe =>
      have hle : FileData.le file ({ file with parsed := some p } : FileData) :=
        ⟨fun _ hx => hx, fun _ hx => hx, OptionLe.of_none hp _, fun _ hx => hx⟩
      have h1 : FilesMono st
          { st with files := updateAssoc st.files path { file with parsed := some p } } :=
        FilesMono.update_present hl hle st
      have hl2 : lookupAssoc (updateAssoc st.files path { file with parsed := some p })
          path = some ({ file with parsed := some p } : FileData) :=
        lookupAssoc_updateAssoc_self st.files path { file with parsed := some p }
      exact filesMono_trans h1 (import_resolved_eval_stage_mono settings eval path
        { st with files := updateAssoc st.files path { file with parsed := some p } }
        { file with parsed := some p } p ⟨path, code⟩ hl2 hfe hmono hkeep hres)

theorem import_resolved_occ_stage_mono
    (settings : EvaluationSettings) (ext : ExtFns) (eval : EvalFn) (path : SourcePath)
    (st : EvaluationData) (file : FileData)
    (hl : lookupAssoc st.files path = some file)
    (hmono : ∀ c e s, FilesMono s (eval c e s).2)
    (hkeep : ∀ c e s fdp, lookupAssoc s.files path = some fdp → fdp.evaluated = none →
        ∀ fdp2, lookupAssoc (eval c e s).2.files path = some fdp2 → fdp2.evaluated = none)
    {st' : EvaluationData}
    (hres : (State.import_resolved_occ_stage settings ext eval path st
        file).stateOf = some st') :
    FilesMono st st' := by
  unfold State.import_resolved_occ_stage at hres
  split at hres
  next v hv =>
    simp only [Outcome.stateOf] at hres
    obtain rfl := Option.some.inj hres
    exact filesMono_refl st
  next hv =>
    split at hres
    next code hcode =>
      exact import_resolved_parse_stage_mono settings ext eval path st file code
        hl hv hmono hkeep hres
    next hcode =>
      split at hres
      next hbytes =>
        simp [Outcome.stateOf] at hres
      next bs hbs =>
        split at hres
        next hutf =>
          simp only [Outcome.stateOf] at hres
          obtain rfl := Option.some.inj hres
          exact filesMono_refl st
        next code hutf =>
          have hle : FileData.le file ({ file with string := some code } : FileData) :=
            ⟨OptionLe.of_none hcode _, fun _ hx => hx, fun _ hx => hx, fun _ hx => hx⟩
          have h1 : FilesMono st
              { st with files := updateAssoc st.files path { file with string := some code } } :=
            FilesMono.update_present hl hle st
          have hl2 : lookupAssoc (updateAssoc st.files path { file with string := some code })
              path = some ({ file with string := some code } : FileData) :=
            lookupAssoc_updateAssoc_self st.files path { file with string := some code }
          exact filesMono_trans h1 (import_resolved_parse_stage_mono settings ext eval path
            { st with files := updateAssoc st.files path { file with string := some code } }
            { file with string := some code } code hl2 hv hmono hkeep hres)

theorem import_resolved_mono
    (settings : EvaluationSettings) (ext : ExtFns) (eval : EvalFn) (path : SourcePath)
    (st : EvaluationData)
    (hmono : ∀ c e s, FilesMono s (eval c e s).2)
    (hkeep : ∀ c e s fdp, lookupAssoc s.files path = some fdp → fdp.evaluated = none →
        ∀ fdp2, lookupAssoc (eval c e s).2.files path = some fdp2 → fdp2.evaluated = none)
    {st' : EvaluationData}
    (hres : (State.import_resolved settings ext eval path st).stateOf = some st') :
    FilesMono st st' := by
  unfold State.import_resolved at hres
  split at hres
  next file hfl =>
    exact import_resolved_occ_stage_mono settings ext eval path st file hfl hmono hkeep hres
  next hfl =>
    split at hres
    next e he =>
      simp only [Outcome.stateOf] at hres
      obtain rfl := Option.some.inj hres
      exact filesMono_refl st
    next data hd =>
      split at hres
      next hu =>
        simp only [Outcome.stateOf] at hres
        obtain rfl := Option.some.inj hres
        exact filesMono_refl st
      next s hu =>
        have h1 : FilesMono st
            { st with files := updateAssoc st.files path (FileData.new_string s) } :=
          FilesMono.update_new hfl (FileData.new_string s) st
        have hl2 : lookupAssoc (updateAssoc st.files path (FileData.new_string s)) path
            = some (FileData.new_string s) :=
          lookupAssoc_updateAssoc_self st.files path (FileData.new_string s)
        exact filesMono_trans h1 (import_resolved_occ_stage_mono settings ext eval path _ _
          hl2 hmono hkeep hres)

theorem import_resolved_str_mono
    (settings : EvaluationSettings) (ext : ExtFns) (path : SourcePath)
    (st : EvaluationData) {st' : EvaluationData}
    (hres : (State.import_resolved_str settings ext path st).stateOf = some st') :
    FilesMono st st' := by
  unfold State.import_resolved_str at hres
  split at hres
  next hfl =>
    split at hres
    next e he =>
      simp only [Outcome.stateOf] at hres
      obtain rfl := Option.some.inj hres
      exact filesMono_refl st
    next data hd =>
      split at hres
      next hu =>
        simp only [Outcome.stateOf] at hres
        obtain rfl := Option.some.inj hres
        exact filesMono_refl st
      next s hu =>
        simp only [Outcome.stateOf] at hres
        obtain rfl := Option.some.inj hres
        exact FilesMono.update_new hfl (FileData.new_string s) st
  next file hfl =>
    split at hres
    next s hs =>
      simp only [Outcome.stateOf] at hres
      obtain rfl := Option.some.inj hres
      exact filesMono_refl st
    next hs =>
      split at hres
      next hb =>
        simp [Outcome.stateOf] at hres
      next bs hb =>
        split at hres
        next hu =>
          simp only [Outcome.stateOf] at hres
          obtain rfl := Option.some.inj hres
          exact filesMono_refl st
        next s hu =>
          simp only [Outcome.stateOf] at hres
          obtain rfl := Option.some.inj hres
          have hle : FileData.le file ({ file with string := some s } : FileData) :=
            ⟨OptionLe.of_none hs _, fun _ hx => hx, fun _ hx => hx, fun _ hx => hx⟩
          exact FilesMono.update_present hfl hle st

theorem import_resolved_bin_mono
    (settings : EvaluationSettings) (ext : ExtFns) (path : SourcePath)
    (st : EvaluationData) {st' : EvaluationData}
    (hres : (State.import_resolved_bin settings ext path st).stateOf = some st') :
    FilesMono st st' := by
  unfold State.import_resolved_bin at hres
  split at hres
  next hfl =>
    split at hres
    next e he =>
      simp only [Outcome.stateOf] at hres
      obtain rfl := Option.some.inj hres
      exact filesMono_refl st
    next data hd =>
      simp only [Outcome.stateOf] at hres
      obtain rfl := Option.some.inj hres
      exact FilesMono.update_new hfl (FileData.new_bytes data) st
  next file hfl =>
    split at hres
    next bs hbs =>
      simp only [Outcome.stateOf] at hres
      obtain rfl := Option.some.inj hres
      exact filesMono_refl st
    next hbs =>
      split at hres
      next hstr =>
        simp [Outcome.stateOf] at hres
      next s hstr =>
        simp only [Outcome.stateOf] at hres
        obtain rfl := Option.some.inj hres
        have hle : FileData.le file
            ({ file with bytes := some (ext.cast_bytes s) } : FileData) :=
          ⟨fun _ hx => hx, OptionLe.of_none hbs _, fun _ hx => hx, fun _ hx => hx⟩
        exact FilesMono.update_present hfl hle st

theorem import_resolved_eval_stage_inv
    (settings : EvaluationSettings) (eval : EvalFn) (path : SourcePath)
    (st : EvaluationData) (file : FileData) (parsed : LocExpr) (file_name : Source)
    (hinv : CacheInv st) (hsb : FileData.sb file)
    (hevalinv : ∀ c e s, CacheInv s → CacheInv (eval c e s).2)
    {st' : EvaluationData}
    (hres : (State.import_resolved_eval_stage settings eval path st file parsed
        file_name).stateOf = some st') :
    CacheInv st' := by
  unfold State.import_resolved_eval_stage at hres
  split at hres
  · simp only [Outcome.stateOf] at hres
    obtain rfl := Option.some.inj hres
    exact hinv
  · split at hres
    next res st2 heval =>
      have hsb1 : FileData.sb ({ file with evaluating := true } : FileData) := hsb
      have hinv1 : CacheInv
          ({ st with files := updateAssoc st.files path { file with evaluating := true } }
            : EvaluationData) :=
        CacheInv.update hinv hsb1 st
      have hinv2 : CacheInv st2 := by
        have := hevalinv (settings.context_initializer file_name) parsed
          { st with files := updateAssoc st.files path { file with evaluating := true } }
          hinv1
        rwa [heval] at this
      split at hres
      next =>
        simp [Outcome.stateOf] at hres
      next file2 hlk =>
        have hsb2 : FileData.sb file2 := hinv2 path file2 hlk
        have hsb3 : FileData.sb ({ file2 with evaluating := false } : FileData) := hsb2
        have hinv3 : CacheInv
            ({ st2 with files := updateAssoc st2.files path { file2 with evaluating := false } }
              : EvaluationData) :=
          CacheInv.update hinv2 hsb3 st2
        split at hres
        next _r v =>
          simp only [Outcome.stateOf] at hres
          obtain rfl := Option.some.inj hres
          have hsb4 : FileData.sb
              ({ file2 with evaluating := false, evaluated := some v } : FileData) := hsb2
          exact CacheInv.update hinv3 hsb4 _
        next _r e =>
          simp only [Outcome.stateOf] at hres
          obtain rfl := Option.some.inj hres
          exact hinv3

theorem import_resolved_parse_stage_inv
    (settings : EvaluationSettings) (ext : ExtFns) (eval : EvalFn) (path : SourcePath)
    (st : EvaluationData) (file : FileData) (code : IStr)
    (hinv : CacheInv st) (hsb : FileData.sb file)
    (hevalinv : ∀ c e s, CacheInv s → CacheInv (eval c e s).2)
    {st' : EvaluationData}
    (hres : (State.import_resolved_parse_stage settings ext eval path st file
        code).stateOf = some st') :
    CacheInv st' := by
  unfold State.import_resolved_parse_stage at hres
  split at hres
  next p hp =>
    exact import_resolved_eval_stage_inv settings eval path st file p ⟨path, code⟩
      hinv hsb hevalinv hres
  next hp =>
    split at hres
    next pe hpe =>
      simp only [Outcome.stateOf] at hres
      obtain rfl := Option.some.inj hres
      exact hinv
    next p hpe =>
      have hsb1 : FileData.sb ({ file with parsed := some p } : FileData) := hsb
      have hinv1 : CacheInv
          ({ st with files := updateAssoc st.files path { file with parsed := some p } }
            : EvaluationData) :=
        CacheInv.update hinv hsb1 st
      exact import_resolved_eval_stage_inv settings eval path
        { st with files := updateAssoc st.files path { file with parsed := some p } }
        { file with parsed := some p } p ⟨path, code⟩ hinv1 hsb1 hevalinv hres

theorem import_resolved_occ_stage_inv
    (settings : EvaluationSettings) (ext : ExtFns) (eval : EvalFn) (path : SourcePath)
    (st : EvaluationData) (file : FileData)
    (hinv : CacheInv st) (hsb : FileData.sb file)
    (hevalinv : ∀ c e s, CacheInv s → CacheInv (eval c e s).2)
    {st' : EvaluationData}
    (hres : (State.import_resolved_occ_stage settings ext eval path st
        file).stateOf = some st') :
    CacheInv st' := by
  unfold State.import_resolved_occ_stage at hres
  split at hres
  next v hv =>
    simp only [Outcome.stateOf] at hres
    obtain rfl := Option.some.inj hres
    exact hinv
  next hv =>
    split at hres
    next code hcode =>
      exact import_resolved_parse_stage_inv settings ext eval path st file code
        hinv hsb hevalinv hres
    next hcode =>
      split at hres
      next hbytes =>
        simp [Outcome.stateOf] at hres
      next bs hbs =>
        split at hres
        next hutf =>
          simp only [Outcome.stateOf] at hres
          obtain rfl := Option.some.inj hres
          exact hinv
        next code hutf =>
          have hsb1 : FileData.sb ({ file with string := some code } : FileData) := by
            left
            simp
          have hinv1 : CacheInv
              ({ st with files := updateAssoc st.files path { file with string := some code } }
                : EvaluationData) :=
            CacheInv.update hinv hsb1 st
          exact import_resolved_parse_stage_inv settings ext eval path
            { st with files := updateAssoc st.files path { file with string := some code } }
            { file with string := some code } code hinv1 hsb1 hevalinv hres

theorem import_resolved_inv
    (settings : EvaluationSettings) (ext : ExtFns) (eval : EvalFn) (path : SourcePath)
    (st : EvaluationData) (hinv : CacheInv st)
    (hevalinv : ∀ c e s, CacheInv s → CacheInv (eval c e s).2)
    {st' : EvaluationData}
    (hres : (State.import_resolved settings ext eval path st).stateOf = some st') :
    CacheInv st' := by
  unfold State.import_resolved at hres
  split at hres
  next file hfl =>
    exact import_resolved_occ_stage_inv settings ext eval path st file hinv
      (hinv path file hfl) hevalinv hres
  next hfl =>
    split at hres
    next e he =>
      simp only [Outcome.stateOf] at hres
      obtain rfl := Option.some.inj hres
      exact hinv
    next data hd =>
      split at hres
      next hu =>
        simp only [Outcome.stateOf] at hres
        obtain rfl := Option.some.inj hres
        exact hinv
      next s hu =>
        have hsb1 : FileData.sb (FileData.new_string s) := by
          left
          simp [FileData.new_string]
        have hinv1 : CacheInv
            ({ st with files := updateAssoc st.files path (FileData.new_string s) }
              : EvaluationData) :=
          CacheInv.update hinv hsb1 st
        exact import_resolved_occ_stage_inv settings ext eval path
          { st with files := updateAssoc st.files path (FileData.new_string s) }
          (FileData.new_string s) hinv1 hsb1 hevalinv hres

theorem import_resolved_str_inv
    (settings : EvaluationSettings) (ext : ExtFns) (path : SourcePath)
    (st : EvaluationData) (hinv : CacheInv st) {st' : EvaluationData}
    (hres : (State.import_resolved_str settings ext path st).stateOf = some st') :
    CacheInv st' := by
  unfold State.import_resolved_str at hres
  split at hres
  next hfl =>
    split at hres
    next e he =>
      simp only [Outcome.stateOf] at hres
      obtain rfl := Option.some.inj hres
      exact hinv
    next data hd =>
      split at hres
      next hu =>
        simp only [Outcome.stateOf] at hres
        obtain rfl := Option.some.inj hres
        exact hinv
      next s hu =>
        simp only [Outcome.stateOf] at hres
        obtain rfl := Option.some.inj hres
        refine CacheInv.update hinv ?_ st
        left
        simp [FileData.new_string]
  next file hfl =>
    split at hres
    next s hs =>
      simp only [Outcome.stateOf] at hres
      obtain rfl := Option.some.inj hres
      exact hinv
    next hs =>
      split at hres
      next hb =>
        simp [Outcome.stateOf] at hres
      next bs hb =>
        split at hres
        next hu =>
          simp only [Outcome.stateOf] at hres
          obtain rfl := Option.some.inj hres
          exact hinv
        next s hu =>
          simp only [Outcome.stateOf] at hres
          obtain rfl := Option.some.inj hres
          refine CacheInv.update hinv ?_ st
          left
          simp

theorem import_resolved_bin_inv
    (settings : EvaluationSettings) (ext : ExtFns) (path : SourcePath)
    (st : EvaluationData) (hinv : CacheInv st) {st' : EvaluationData}
    (hres : (State.import_resolved_bin settings ext path st).stateOf = some st') :
    CacheInv st' := by
  unfold State.import_resolved_bin at hres
  split at hres
  next hfl =>
    split at hres
    next e he =>
      simp only [Outcome.stateOf] at hres
      obtain rfl := Option.some.inj hres
      exact hinv
    next data hd =>
      simp only [Outcome.stateOf] at hres
      obtain rfl := Option.some.inj hres
      refine CacheInv.update hinv ?_ st
      right
      simp [FileData.new_bytes]
  next file hfl =>
    split at hres
    next bs hbs =>
      simp only [Outcome.stateOf] at hres
      obtain rfl := Option.some.inj hres
      exact hinv
    next hbs =>
      split at hres
      next hstr =>
        simp [Outcome.stateOf] at hres
      next s hstr =>
        simp only [Outcome.stateOf] at hres
        obtain rfl := Option.some.inj hres
        refine CacheInv.update hinv ?_ st
        right
        simp

theorem import_resolved_eval_stage_ne_panic
    (settings : EvaluationSettings) (eval : EvalFn) (path : SourcePath)
    (st : EvaluationData) (file : FileData) (parsed : LocExpr) (file_name : Source) :
    State.import_resolved_eval_stage settings eval path st file parsed file_name ≠
      Outcome.panic "either string or bytes should be set" := by
  intro h
  unfold State.import_resolved_eval_stage at h
  split at h
  · exact absurd h (by simp)
  · split at h
    next res st2 heval =>
      split at h
      next =>
        exact absurd h (by decide)
      next file2 hlk =>
        split at h
        next _r v => exact absurd h (by simp)
        next _r e => exact absurd h (by simp)

theorem import_resolved_parse_stage_ne_panic
    (settings : EvaluationSettings) (ext : ExtFns) (eval : EvalFn) (path : SourcePath)
    (st : EvaluationData) (file : FileData) (code : IStr) :
    State.import_resolved_parse_stage settings ext eval path st file code ≠
      Outcome.panic "either string or bytes should be set" := by
  intro h
  unfold State.import_resolved_parse_stage at h
  split at h
  next p hp =>
    exact import_resolved_eval_stage_ne_panic settings eval path st file p ⟨path, code⟩ h
  next hp =>
    split at h
    next pe hpe => exact absurd h (by simp)
    next p hpe =>
      exact import_resolved_eval_stage_ne_panic settings eval path
        { st with files := updateAssoc st.files path { file with parsed := some p } }
        { file with parsed := some p } p ⟨path, code⟩ h

theorem import_resolved_occ_stage_ne_panic
    (settings : EvaluationSettings) (ext : ExtFns) (eval : EvalFn) (path : SourcePath)
    (st : EvaluationData) (file : FileData) (hsb : FileData.sb file) :
    State.import_resolved_occ_stage settings ext eval path st file ≠
      Outcome.panic "either string or bytes should be set" := by
  intro h
  unfold State.import_resolved_occ_stage at h
  split at h
  next v hv => exact absurd h (by simp)
  next hv =>
    split at h
    next code hcode =>
      exact import_resolved_parse_stage_ne_panic settings ext eval path st file code h
    next hcode =>
      split at h
      next hbytes =>
        rcases hsb with h1 | h1
        · rw [hcode] at h1
          simp at h1
        · rw [hbytes] at h1
          simp at h1
      next bs hbs =>
        split at h
        next hutf => exact absurd h (by simp)
        next code hutf =>
          exact import_resolved_parse_stage_ne_panic settings ext eval path
            { st with files := updateAssoc st.files path { file with string := some code } }
            { file with string := some code } code h

theorem import_resolved_ne_panic
    (settings : EvaluationSettings) (ext : ExtFns) (eval : EvalFn) (path : SourcePath)
    (st : EvaluationData) (hinv : CacheInv st) :
    State.import_resolved settings ext eval path st ≠
      Outcome.panic "either string or bytes should be set" := by
  intro h
  unfold State.import_resolved at h
  split at h
  next file hfl =>
    exact import_resolved_occ_stage_ne_panic settings ext eval path st file
      (hinv path file hfl) h
  next hfl =>
    split at h
    next e he => exact absurd h (by simp)
    next data hd =>
      split at h
      next hu => exact absurd h (by simp)
      next s hu =>
        refine import_resolved_occ_stage_ne_panic settings ext eval path
          { st with files := updateAssoc st.files path (FileData.new_string s) }
          (FileData.new_string s) ?_ h
        left
        simp [FileData.new_string]

theorem import_resolved_str_ne_panic
    (settings : EvaluationSettings) (ext : ExtFns) (path : SourcePath)
    (st : EvaluationData) (hinv : CacheInv st) :
    State.import_resolved_str settings ext path st ≠
      Outcome.panic "either string or bytes should be set" := by
  intro h
  unfold State.import_resolved_str at h
  split at h
  next hfl =>
    split at h
    next e he => exact absurd h (by simp)
    next data hd =>
      split at h
      next hu => exact absurd h (by simp)
      next s hu => exact absurd h (by simp)
  next file hfl =>
    split at h
    next s hs => exact absurd h (by simp)
    next hs =>
      split at h
      next hb =>
        rcases hinv path file hfl with h1 | h1
        · rw [hs] at h1
          simp at h1
        · rw [hb] at h1
          simp at h1
      next bs hb =>
        split at h
        next hu => exact absurd h (by simp)
        next s hu => exact absurd h (by simp)

theorem import_resolved_bin_ne_panic
    (settings : EvaluationSettings) (ext : ExtFns) (path : SourcePath)
    (st : EvaluationData) (hinv : CacheInv st) :
    State.import_resolved_bin settings ext path st ≠
      Outcome.panic "either string or bytes should be set" := by
  intro h
  unfold State.import_resolved_bin at h
  split at h
  next hfl =>
    split at h
    next e he => exact absurd h (by simp)
    next data hd => exact absurd h (by simp)
  next file hfl =>
    split at h
    next bs hbs => exact absurd h (by simp)
    next hbs =>
      split at h
      next hstr =>
        rcases hinv path file hfl with h1 | h1
        · rw [hstr] at h1
          simp at h1
        · rw [hbs] at h1
          simp at h1
      next s hstr => exact absurd h (by simp)

theorem State.push_overflow {α : Type} (max_stack : Nat) (e : CallLocation)
    (frame_desc : String) (f : EvaluationData → Except LocError α × EvaluationData)
    (st : EvaluationData) (h : st.stack_depth > max_stack) :
    State.push max_stack e frame_desc f st = (Except.error ⟨Error.StackOverflow, []⟩, st) := by
  unfold State.push
  rw [if_pos h]

theorem State.push_val_overflow (max_stack : Nat)
    (covers : ExprLocation → ExprLocation → Bool) (e : ExprLocation)
    (frame_desc : String) (f : EvaluationData → Except LocError Val × EvaluationData)
    (st : EvaluationData) (h : st.stack_depth > max_stack) :
    State.push_val max_stack covers e frame_desc f st
      = (Except.error ⟨Error.StackOverflow, []⟩, st) := by
  unfold State.push_val
  rw [if_pos h]

theorem State.push_description_overflow {α : Type} (max_stack : Nat)
    (frame_desc : String) (f : EvaluationData → Except LocError α × EvaluationData)
    (st : EvaluationData) (h : st.stack_depth > max_stack) :
    State.push_description max_stack frame_desc f st
      = (Except.error ⟨Error.StackOverflow, []⟩, st) := by
  unfold State.push_description
  rw [if_pos h]

theorem State.push_ok {α : Type} (max_stack : Nat) (e : CallLocation)
    (frame_desc : String) (f : EvaluationData → Except LocError α × EvaluationData)
    (st : EvaluationData) (v : α) (st2 : EvaluationData)
    (h : ¬ st.stack_depth > max_stack)
    (hf : f { st with stack_depth := st.stack_depth + 1 } = (Except.ok v, st2)) :
    State.push max_stack e frame_desc f st =
      (Except.ok v,
        { st2 with
            stack_depth := st2.stack_depth - 1,
            stack_generation := st2.stack_generation + 1 }) := by
  unfold State.push
  rw [if_neg h, hf]

theorem State.push_err {α : Type} (max_stack : Nat) (e : CallLocation)
    (frame_desc : String) (f : EvaluationData → Except LocError α × EvaluationData)
    (st : EvaluationData) (er : LocError) (st2 : EvaluationData)
    (h : ¬ st.stack_depth > max_stack)
    (hf : f { st with stack_depth := st.stack_depth + 1 } = (Except.error er, st2)) :
    State.push max_stack e frame_desc f st =
      (Except.error { er with trace := er.trace ++ [⟨e, frame_desc⟩] },
        { st2 with
            stack_depth := st2.stack_depth - 1,
            stack_generation := st2.stack_generation + 1 }) := by
  unfold State.push
  rw [if_neg h, hf]

theorem State.push_description_ok {α : Type} (max_stack : Nat)
    (frame_desc : String) (f : EvaluationData → Except LocError α × EvaluationData)
    (st : EvaluationData) (v : α) (st2 : EvaluationData)
    (h : ¬ st.stack_depth > max_stack)
    (hf : f { st with stack_depth := st.stack_depth + 1 } = (Except.ok v, st2)) :
    State.push_description max_stack frame_desc f st =
      (Except.ok v,
        { st2 with
            stack_depth := st2.stack_depth - 1,
            stack_generation := st2.stack_generation + 1 }) := by
  unfold State.push_description
  rw [if_neg h, hf]

theorem State.push_description_err {α : Type} (max_stack : Nat)
    (frame_desc : String) (f : EvaluationData → Except LocError α × EvaluationData)
    (st : EvaluationData) (er : LocError) (st2 : EvaluationData)
    (h : ¬ st.stack_depth > max_stack)
    (hf : f { st with stack_depth := st.stack_depth + 1 } = (Except.error er, st2)) :
    State.push_description max_stack frame_desc f st =
      (Except.error { er with trace := er.trace ++ [⟨none, frame_desc⟩] },
        { st2 with
            stack_depth := st2.stack_depth - 1,
            stack_generation := st2.stack_generation + 1 }) := by
  unfold State.push_description
  rw [if_neg h, hf]

theorem State.push_val_ok (max_stack : Nat)
    (covers : ExprLocation → ExprLocation → Bool) (e : ExprLocation)
    (frame_desc : String) (f : EvaluationData → Except LocError Val × EvaluationData)
    (st : EvaluationData) (v : Val) (st2 : EvaluationData)
    (h : ¬ st.stack_depth > max_stack)
    (hf : f { st with stack_depth := st.stack_depth + 1 } = (Except.ok v, st2)) :
    State.push_val max_stack covers e frame_desc f st =
      (Except.ok v,
        { st2 with
            stack_depth := st2.stack_depth - 1,
            stack_generation := st2.stack_generation + 1,
            breakpoints := (Breakpoints.insert covers st2.breakpoints
              (st2.stack_depth - 1) (st2.stack_generation + 1) e (Except.ok v)).2 }) := by
  unfold State.push_val
  rw [if_neg h, hf]
  rcases hbi : Breakpoints.insert covers st2.breakpoints (st2.stack_depth - 1)
      (st2.stack_generation + 1) e (Except.ok v) with ⟨res2, bps2⟩
  have hres2 : res2 = Except.ok v := by
    have hfst := Breakpoints.insert_fst covers st2.breakpoints (st2.stack_depth - 1)
      (st2.stack_generation + 1) e (Except.ok v)
    rwa [hbi] at hfst
  subst hres2
  simp [hbi]

theorem State.push_val_err (max_stack : Nat)
    (covers : ExprLocation → ExprLocation → Bool) (e : ExprLocation)
    (frame_desc : String) (f : EvaluationData → Except LocError Val × EvaluationData)
    (st : EvaluationData) (er : LocError) (st2 : EvaluationData)
    (h : ¬ st.stack_depth > max_stack)
    (hf : f { st with stack_depth := st.stack_depth + 1 } = (Except.error er, st2)) :
    State.push_val max_stack covers e frame_desc f st =
      (Except.error { er with trace := er.trace ++ [⟨some e, frame_desc⟩] },
        { st2 with
            stack_depth := st2.stack_depth - 1,
            stack_generation := st2.stack_generation + 1,
            breakpoints := (Breakpoints.insert covers st2.breakpoints
              (st2.stack_depth - 1) (st2.stack_generation + 1) e (Except.error er)).2 }) := by
  unfold State.push_val
  rw [if_neg h, hf]
  rcases hbi : Breakpoints.insert covers st2.breakpoints (st2.stack_depth - 1)
      (st2.stack_generation + 1) e (Except.error er) with ⟨res2, bps2⟩
  have hres2 : res2 = Except.error er := by
    have hfst := Breakpoints.insert_fst covers st2.breakpoints (st2.stack_depth - 1)
      (st2.stack_generation + 1) e (Except.error er)
    rwa [hbi] at hfst
  subst hres2
  simp [hbi]

theorem nested_push_ok (max_stack : Nat) :
    ∀ (k : Nat) (st : EvaluationData), st.stack_depth + k ≤ max_stack + 1 →
      (nested_push max_stack k st).1 = Except.ok 0 := by
  intro k
  induction k with
  | zero => intro st _; rfl
  | succ k ih =>
    intro st hk
    have h : ¬ st.stack_depth > max_stack := by omega
    rcases hin : nested_push max_stack k { st with stack_depth := st.stack_depth + 1 }
      with ⟨res, st2⟩
    have hres : res = Except.ok 0 := by
      have := ih { st with stack_depth := st.stack_depth + 1 } (by simp; omega)
      rwa [hin] at this
    subst hres
    rw [show nested_push max_stack (k + 1) st
        = State.push max_stack CallLocation.native "recursive step"
          (nested_push max_stack k) st from rfl,
      State.push_ok max_stack CallLocation.native "recursive step"
        (nested_push max_stack k) st 0 st2 h hin]

theorem nested_push_overflow (max_stack : Nat) :
    ∀ (k : Nat) (st : EvaluationData), max_stack + 1 < st.stack_depth + k → 1 ≤ k →
      ∃ e : LocError, (nested_push max_stack k st).1 = Except.error e ∧
        e.error = Error.StackOverflow := by
  intro k
  induction k with
  | zero => intro st _ h1; omega
  | succ k ih =>
    intro st hk _
    by_cases h : st.stack_depth > max_stack
    · refine ⟨⟨Error.StackOverflow, []⟩, ?_, rfl⟩
      rw [show nested_push max_stack (k + 1) st
          = State.push max_stack CallLocation.native "recursive step"
            (nested_push max_stack k) st from rfl,
        State.push_overflow max_stack CallLocation.native "recursive step"
          (nested_push max_stack k) st h]
    · have hk1 : 1 ≤ k := by omega
      obtain ⟨e, he, hkind⟩ := ih { st with stack_depth := st.stack_depth + 1 }
        (by simp; omega) hk1
      rcases hin : nested_push max_stack k { st with stack_depth := st.stack_depth + 1 }
        with ⟨res, st2⟩
      have hres : res = Except.error e := by
        rwa [hin] at he
      subst hres
      refine ⟨{ e with trace := e.trace ++ [⟨CallLocation.native, "recursive step"⟩] },
        ?_, hkind⟩
      rw [show nested_push max_stack (k + 1) st
          = State.push max_stack CallLocation.native "recursive step"
            (nested_push max_stack k) st from rfl,
        State.push_err max_stack CallLocation.native "recursive step"
          (nested_push max_stack k) st e st2 h hin]

theorem CacheInv_single (p : SourcePath) (fd : FileData) (hsb : FileData.sb fd)
    (d g : Nat) (bps : List Breakpoint) : CacheInv ⟨d, g, bps, [(p, fd)]⟩ := by
  intro q fdq hq
  unfold lookupAssoc at hq
  split at hq
  · obtain rfl := Option.some.inj hq
    exact hsb
  · exact absurd hq (by simp [lookupAssoc])

/-- C9: a freshly created `State` (`EvaluationSettings::default`) has
`max_stack = 200`, `max_trace = 20`, an empty TLA variable map, a context
initializer that adds no bindings (it returns `Context::default()`, which
binds nothing), and JSON manifest format with padding 4. -/
theorem c9_default_settings :
    EvaluationSettings.default.max_stack = 200 ∧
    EvaluationSettings.default.max_trace = 20 ∧
    EvaluationSettings.default.tla_vars = [] ∧
    (∀ src : Source, EvaluationSettings.default.context_initializer src = Context.default) ∧
    Context.default.bindings = [] ∧
    EvaluationSettings.default.manifest_format = ManifestFormat.Json 4 :=
  ⟨rfl, rfl, rfl, fun _ => rfl, rfl, rfl⟩

/-- C8: evaluating the distinguished identity function (`FuncVal::Id`)
applied to the single argument value `v` returns `v` (with the state
untouched), `FuncVal::is_identity` holds exactly for the `Id` variant, and
`FuncVal::identity()` satisfies `is_identity`. -/
theorem c8_identity_function :
    (∀ (interp : FuncInterp) (ctx : Context) (loc : CallLocation) (ts : Bool)
      (st : EvaluationData) (v : Val),
      FuncVal.evaluate interp FuncVal.Id ctx loc ⟨[TlaArg.Val v], []⟩ ts st
        = (Except.ok v, st)) ∧
    (∀ f : FuncVal, f.is_identity = true ↔ f = FuncVal.Id) ∧
    FuncVal.identity.is_identity = true := by
  refine ⟨fun interp ctx loc ts st v => rfl, fun f => ?_, rfl⟩
  cases f <;> simp [FuncVal.is_identity]

/-- C7: the native callback bridge passes the callback all arguments as
already-forced values in order (one pointer per argument, in order, then a
terminating null); if the callback leaves the success flag at 1 the bridge
returns its value as `Ok`, and if the callback clears the flag the bridge
converts the returned string payload into `Err(RuntimeError)` carrying that
string. -/
theorem c7_native_bridge :
    (∀ (args : List Val) (i : Nat) (h : i < args.length),
      (marshal_args args).get? i = some (some (args.get ⟨i, h⟩))) ∧
    (∀ args : List Val, (marshal_args args).get? args.length = some none) ∧
    (∀ (cb : List (Option Val) → Int × Val) (args : List Val) (v : Val),
      cb (marshal_args args) = (1, v) →
      JsonnetNativeCallbackHandler.call cb args = CallOutcome.ok v) ∧
    (∀ (cb : List (Option Val) → Int × Val) (args : List Val) (s : IStr),
      cb (marshal_args args) = (0, Val.str s) →
      JsonnetNativeCallbackHandler.call cb args
        = CallOutcome.err ⟨Error.RuntimeError s, []⟩) := by
  refine ⟨?_, ?_, ?_, ?_⟩
  · intro args i h
    unfold marshal_args
    rw [List.get?_append (by simpa using h), List.get?_map,
      List.get?_eq_get h]
    rfl
  · intro args
    unfold marshal_args
    rw [List.get?_append_right (by simp)]
    simp
  · intro cb args v hcb
    unfold JsonnetNativeCallbackHandler.call
    rw [hcb]
    simp
  · intro cb args s hcb
    unfold JsonnetNativeCallbackHandler.call
    rw [hcb]
    simp [try_cast_str]

/-- C7 witness: the marshalled vector and both flag outcomes at concrete
callbacks. -/
theorem c7_native_bridge_witness :
    (marshal_args [Val.null]).get? 0 = some (some Val.null) ∧
    JsonnetNativeCallbackHandler.call cb_ok0 [] = CallOutcome.ok Val.null ∧
    JsonnetNativeCallbackHandler.call cb_err0 []
      = CallOutcome.err ⟨Error.RuntimeError "bad", []⟩ := by
  obtain ⟨q1, _, q3, q4⟩ := c7_native_bridge
  exact ⟨q1 [Val.null] 0 (by decide), q3 cb_ok0 [] Val.null rfl, q4 cb_err0 [] "bad" rfl⟩

/-- C2 counterexample: with `max_stack = 0`, a non-tail recursion of depth
`1 > 0` does not fail with `StackOverflow` — it succeeds.  The overflow
check `stack_depth > max_stack` runs before the increment, so one frame
more than `max_stack` is always admitted. -/
theorem c2_stack_limit_counterexample :
    (nested_push 0 1 st_empty).1 = Except.ok 0 ∧
    (nested_push 0 1 st_empty).1 ≠ Except.error ⟨Error.StackOverflow, []⟩ := by
  constructor
  · decide
  · decide

/-- C2 (amended): each frame-pushing operation (`State::push`,
`State::push_val`, `State::push_description`) fails with `StackOverflow`
without running the inner computation exactly when it is entered with
`stack_depth > max_stack`, and otherwise runs the inner computation at
depth incremented by one; consequently, with `max_stack = N`, nested
recursion through `State::push` succeeds up to depth `N + 1` and any
recursion of depth greater than `N + 1` fails with `StackOverflow` (the
strict pre-increment check admits one frame more than `max_stack`). -/
theorem c2_stack_limit_amended :
    (∀ (α : Type) (max_stack : Nat) (e : CallLocation) (frame_desc : String)
      (f : EvaluationData → Except LocError α × EvaluationData) (st : EvaluationData),
      st.stack_depth > max_stack →
      State.push max_stack e frame_desc f st
        = (Except.error ⟨Error.StackOverflow, []⟩, st)) ∧
    (∀ (max_stack : Nat) (covers : ExprLocation → ExprLocation → Bool)
      (e : ExprLocation) (frame_desc : String)
      (f : EvaluationData → Except LocError Val × EvaluationData) (st : EvaluationData),
      st.stack_depth > max_stack →
      State.push_val max_stack covers e frame_desc f st
        = (Except.error ⟨Error.StackOverflow, []⟩, st)) ∧
    (∀ (α : Type) (max_stack : Nat) (frame_desc : String)
      (f : EvaluationData → Except LocError α × EvaluationData) (st : EvaluationData),
      st.stack_depth > max_stack →
      State.push_description max_stack frame_desc f st
        = (Except.error ⟨Error.StackOverflow, []⟩, st)) ∧
    (∀ (max_stack : Nat) (e : CallLocation) (frame_desc : String) (st : EvaluationData),
      st.stack_depth ≤ max_stack →
      (State.push max_stack e frame_desc (fun s => (Except.ok s.stack_depth, s)) st).1
        = Except.ok (st.stack_depth + 1)) ∧
    (∀ (max_stack : Nat) (covers : ExprLocation → ExprLocation → Bool)
      (e : ExprLocation) (frame_desc : String) (st : EvaluationData),
      st.stack_depth ≤ max_stack →
      (State.push_val max_stack covers e frame_desc
          (fun s => (Except.ok (Val.arr [s.stack_depth]), s)) st).1
        = Except.ok (Val.arr [st.stack_depth + 1])) ∧
    (∀ (max_stack : Nat) (frame_desc : String) (st : EvaluationData),
      st.stack_depth ≤ max_stack →
      (State.push_description max_stack frame_desc
          (fun s => (Except.ok s.stack_depth, s)) st).1
        = Except.ok (st.stack_depth + 1)) ∧
    (∀ (max_stack k : Nat) (st : EvaluationData),
      st.stack_depth + k ≤ max_stack + 1 →
      (nested_push max_stack k st).1 = Except.ok 0) ∧
    (∀ (max_stack k : Nat) (st : EvaluationData),
      max_stack + 1 < st.stack_depth + k → 1 ≤ k →
      ∃ er : LocError, (nested_push max_stack k st).1 = Except.error er ∧
        er.error = Error.StackOverflow) := by
  refine ⟨?_, ?_, ?_, ?_, ?_, ?_, ?_, ?_⟩
  · intro α max_stack e frame_desc f st h
    exact State.push_overflow max_stack e frame_desc f st h
  · intro max_stack covers e frame_desc f st h
    exact State.push_val_overflow max_stack covers e frame_desc f st h
  · intro α max_stack frame_desc f st h
    exact State.push_description_overflow max_stack frame_desc f st h
  · intro max_stack e frame_desc st h
    rw [State.push_ok max_stack e frame_desc (fun s => (Except.ok s.stack_depth, s)) st
      (st.stack_depth + 1) { st with stack_depth := st.stack_depth + 1 }
      (Nat.not_lt.mpr h) rfl]
  · intro max_stack covers e frame_desc st h
    rw [State.push_val_ok max_stack covers e frame_desc
      (fun s => (Except.ok (Val.arr [s.stack_depth]), s)) st
      (Val.arr [st.stack_depth + 1]) { st with stack_depth := st.stack_depth + 1 }
      (Nat.not_lt.mpr h) rfl]
  · intro max_stack frame_desc st h
    rw [State.push_description_ok max_stack frame_desc
      (fun s => (Except.ok s.stack_depth, s)) st
      (st.stack_depth + 1) { st with stack_depth := st.stack_depth + 1 }
      (Nat.not_lt.mpr h) rfl]
  · intro max_stack k st h
    exact nested_push_ok max_stack k st h
  · intro max_stack k st h hk
    exact nested_push_overflow max_stack k st h hk

/-- C2 witness: the amended behavior at concrete inputs: an overflowing
frame, the observed incremented depth, a depth-2 recursion succeeding with
`max_stack = 1`, and a depth-3 recursion overflowing with `max_stack = 1`. -/
theorem c2_stack_limit_witness :
    State.push 0 CallLocation.native "d" f_err0 ⟨1, 0, [], []⟩
      = (Except.error ⟨Error.StackOverflow, []⟩, ⟨1, 0, [], []⟩) ∧
    (State.push 200 CallLocation.native "d"
        (fun s => (Except.ok s.stack_depth, s)) st_empty).1 = Except.ok 1 ∧
    (nested_push 1 2 st_empty).1 = Except.ok 0 ∧
    ∃ er : LocError, (nested_push 1 3 st_empty).1 = Except.error er ∧
      er.error = Error.StackOverflow := by
  obtain ⟨p1, _, _, p4, _, _, p7, p8⟩ := c2_stack_limit_amended
  exact ⟨p1 Val 0 CallLocation.native "d" f_err0 ⟨1, 0, [], []⟩ (by decide),
    p4 200 CallLocation.native "d" st_empty (by decide),
    p7 1 2 st_empty (by decide),
    p8 1 3 st_empty (by decide) (by decide)⟩

/-- C3: for every frame-pushing operation, when the inner computation runs
and returns with the depth it was entered at (one more than the caller's),
the final stack depth is restored to its value before the call and the
stack generation is one more than the inner computation left it; and when
the inner computation returned an error, exactly one `StackTraceElement`
carrying the frame's call location (`none` for `push_description`) and
description is appended to the error's trace. -/
theorem c3_frame_exit_behavior :
    (∀ (α : Type) (max_stack : Nat) (e : CallLocation) (frame_desc : String)
      (f : EvaluationData → Except LocError α × EvaluationData)
      (st st2 : EvaluationData) (res : Except LocError α),
      st.stack_depth ≤ max_stack →
      f { st with stack_depth := st.stack_depth + 1 } = (res, st2) →
      st2.stack_depth = st.stack_depth + 1 →
      (State.push max_stack e frame_desc f st).2.stack_depth = st.stack_depth ∧
      (State.push max_stack e frame_desc f st).2.stack_generation
        = st2.stack_generation + 1 ∧
      ∀ er, res = Except.error er →
        (State.push max_stack e frame_desc f st).1
          = Except.error { er with trace := er.trace ++ [⟨e, frame_desc⟩] }) ∧
    (∀ (max_stack : Nat) (covers : ExprLocation → ExprLocation → Bool)
      (e : ExprLocation) (frame_desc : String)
      (f : EvaluationData → Except LocError Val × EvaluationData)
      (st st2 : EvaluationData) (res : Except LocError Val),
      st.stack_depth ≤ max_stack →
      f { st with stack_depth := st.stack_depth + 1 } = (res, st2) →
      st2.stack_depth = st.stack_depth + 1 →
      (State.push_val max_stack covers e frame_desc f st).2.stack_depth = st.stack_depth ∧
      (State.push_val max_stack covers e frame_desc f st).2.stack_generation
        = st2.stack_generation + 1 ∧
      ∀ er, res = Except.error er →
        (State.push_val max_stack covers e frame_desc f st).1
          = Except.error { er with trace := er.trace ++ [⟨some e, frame_desc⟩] }) ∧
    (∀ (α : Type) (max_stack : Nat) (frame_desc : String)
      (f : EvaluationData → Except LocError α × EvaluationData)
      (st st2 : EvaluationData) (res : Except LocError α),
      st.stack_depth ≤ max_stack →
      f { st with stack_depth := st.stack_depth + 1 } = (res, st2) →
      st2.stack_depth = st.stack_depth + 1 →
      (State.push_description max_stack frame_desc f st).2.stack_depth = st.stack_depth ∧
      (State.push_description max_stack frame_desc f st).2.stack_generation
        = st2.stack_generation + 1 ∧
      ∀ er, res = Except.error er →
        (State.push_description max_stack frame_desc f st).1
          = Except.error { er with trace := er.trace ++ [⟨none, frame_desc⟩] }) := by
  refine ⟨?_, ?_, ?_⟩
  · intro α max_stack e frame_desc f st st2 res hd hf hbal
    have h : ¬ st.stack_depth > max_stack := Nat.not_lt.mpr hd
    cases res with
    | ok v =>
      rw [State.push_ok max_stack e frame_desc f st v st2 h hf]
      refine ⟨by simp [hbal], by simp, ?_⟩
      intro er her
      simp at her
    | error er0 =>
      rw [State.push_err max_stack e frame_desc f st er0 st2 h hf]
      refine ⟨by simp [hbal], by simp, ?_⟩
      intro er her
      obtain rfl := Except.error.inj her
      rfl
  · intro max_stack covers e frame_desc f st st2 res hd hf hbal
    have h : ¬ st.stack_depth > max_stack := Nat.not_lt.mpr hd
    cases res with
    | ok v =>
      rw [State.push_val_ok max_stack covers e frame_desc f st v st2 h hf]
      refine ⟨by simp [hbal], by simp, ?_⟩
      intro er her
      simp at her
    | error er0 =>
      rw [State.push_val_err max_stack covers e frame_desc f st er0 st2 h hf]
      refine ⟨by simp [hbal], by simp, ?_⟩
      intro er her
      obtain rfl := Except.error.inj her
      rfl
  · intro α max_stack frame_desc f st st2 res hd hf hbal
    have h : ¬ st.stack_depth > max_stack := Nat.not_lt.mpr hd
    cases res with
    | ok v =>
      rw [State.push_description_ok max_stack frame_desc f st v st2 h hf]
      refine ⟨by simp [hbal], by simp, ?_⟩
      intro er her
      simp at her
    | error er0 =>
      rw [State.push_description_err max_stack frame_desc f st er0 st2 h hf]
      refine ⟨by simp [hbal], by simp, ?_⟩
      intro er her
      obtain rfl := Except.error.inj her
      rfl

/-- C3 witness: a concrete failing frame: the depth is restored, the
generation advances, and exactly one trace element is appended. -/
theorem c3_frame_exit_witness :
    (State.push 200 CallLocation.native "d" f_err0 st_empty).2.stack_depth = 0 ∧
    (State.push 200 CallLocation.native "d" f_err0 st_empty).2.stack_generation = 1 ∧
    (State.push 200 CallLocation.native "d" f_err0 st_empty).1
      = Except.error ⟨Error.RuntimeError "boom", [⟨none, "d"⟩]⟩ := by
  have h := c3_frame_exit_behavior.1 Val 200 CallLocation.native "d" f_err0 st_empty
    ⟨1, 0, [], []⟩ (Except.error ⟨Error.RuntimeError "boom", []⟩)
    (by decide) rfl rfl
  exact ⟨h.1, h.2.1, h.2.2 ⟨Error.RuntimeError "boom", []⟩ rfl⟩

/-- C5 counterexample: a completion recorded at `stack_depth = 5`,
`stack_generation = 1` on a breakpoint with no bucket yet produces a bucket
whose depth tag is `0` — the default from `or_default()` — and not the
current depth `5`: `Breakpoints::insert` never assigns the current depth to
the tag. -/
theorem c5_breakpoints_counterexample :
    (Breakpoints.insert (fun _ _ => true) [bp0] 5 1 loc0 (Except.ok Val.null)).2.map
        Breakpoint.collected
      = [[(1, 0, [Except.ok Val.null])]] ∧
    ¬ ∃ vs, lookupAssoc
        ((Breakpoints.insert (fun _ _ => true) [bp0] 5 1 loc0
          (Except.ok Val.null)).2.headD bp0).collected 1 = some (5, vs) := by
  constructor
  · decide
  · rintro ⟨vs, hvs⟩
    have hc : lookupAssoc
        ((Breakpoints.insert (fun _ _ => true) [bp0] 5 1 loc0
          (Except.ok Val.null)).2.headD bp0).collected 1
        = some (0, [Except.ok Val.null]) := by decide
    rw [hc] at hvs
    simp at hvs

/-- C5 (amended): when an expression at a covered location completes,
`Breakpoints::insert` appends the (cloned) result to the covering
breakpoint's bucket keyed by the current `stack_generation`; a fresh bucket
is created with depth tag `0` (`or_default()`), and the tag is never
updated to the current depth; a completion at a depth strictly greater than
the bucket's recorded tag clears the collected values before appending; and
`insert` always returns the evaluation result unchanged, so recording never
affects program results. -/
theorem c5_breakpoints_amended :
    (∀ (covers : ExprLocation → ExprLocation → Bool) (bps : List Breakpoint)
      (d g : Nat) (loc : ExprLocation) (r : Except LocError Val),
      (Breakpoints.insert covers bps d g loc r).1 = r) ∧
    (∀ (covers : ExprLocation → ExprLocation → Bool) (bps : List Breakpoint)
      (d g : Nat) (loc : ExprLocation) (r : Except LocError Val),
      (Breakpoints.insert covers bps d g loc r).2
        = bps.map fun item =>
            if covers item.loc loc then
              { item with collected := Breakpoints.collect d g r item.collected }
            else item) ∧
    (∀ (d g : Nat) (r : Except LocError Val)
      (collected : List (Nat × Nat × List (Except LocError Val))),
      lookupAssoc collected g = none →
      lookupAssoc (Breakpoints.collect d g r collected) g = some (0, [r])) ∧
    (∀ (d g : Nat) (r : Except LocError Val)
      (collected : List (Nat × Nat × List (Except LocError Val)))
      (dep : Nat) (vals : List (Except LocError Val)),
      lookupAssoc collected g = some (dep, vals) →
      lookupAssoc (Breakpoints.collect d g r collected) g
        = some (dep, (if d > dep then [] else vals) ++ [r])) := by
  refine ⟨?_, ?_, ?_, ?_⟩
  · intro covers bps d g loc r
    exact Breakpoints.insert_fst covers bps d g loc r
  · intro covers bps d g loc r
    unfold Breakpoints.insert
    by_cases h : bps.isEmpty
    · rw [if_pos h]
      rw [List.isEmpty_iff] at h
      subst h
      rfl
    · rw [if_neg h]
  · intro d g r collected hg
    unfold Breakpoints.collect
    rw [hg]
    exact lookupAssoc_updateAssoc_self collected g (0, [r])
  · intro d g r collected dep vals hg
    unfold Breakpoints.collect
    rw [hg]
    exact lookupAssoc_updateAssoc_self collected g (dep, (if d > dep then [] else vals) ++ [r])

/-- C5 witness: concrete fresh-bucket and existing-bucket insertions, and
the result passing through unchanged. -/
theorem c5_breakpoints_witness :
    (Breakpoints.insert (fun _ _ => true) [bp0] 5 1 loc0 (Except.ok Val.null)).1
      = Except.ok Val.null ∧
    lookupAssoc (Breakpoints.collect 5 1 (Except.ok Val.null) []) 1
      = some (0, [Except.ok Val.null]) ∧
    lookupAssoc (Breakpoints.collect 2 1 (Except.ok (Val.num 7))
        [(1, 3, [Except.ok Val.null])]) 1
      = some (3, [Except.ok Val.null, Except.ok (Val.num 7)]) := by
  obtain ⟨q1, _, q3, q4⟩ := c5_breakpoints_amended
  refine ⟨q1 (fun _ _ => true) [bp0] 5 1 loc0 (Except.ok Val.null),
    q3 5 1 (Except.ok Val.null) [] (by decide), ?_⟩
  have h := q4 2 1 (Except.ok (Val.num 7)) [(1, 3, [Except.ok Val.null])] 3
    [Except.ok Val.null] (by decide)
  simpa using h

/-- C6: `State::with_tla(v)` returns `v` unchanged (and does not touch the
state) whenever `v` is not a function value; when `v` is a function, it
calls the function — under a "during TLA call" description frame — with the
default context of the virtual `<tla>` source, a native call location, the
settings' TLA variables supplied as named arguments, and `tailstrict`, and
returns the call's result (with the frame's trace element appended on
error). -/
theorem c6_with_tla :
    (∀ (settings : EvaluationSettings) (interp : FuncInterp) (st : EvaluationData)
      (v : Val), (∀ g : FuncVal, v ≠ Val.func g) →
      State.with_tla settings interp v st = (Except.ok v, st)) ∧
    (∀ (settings : EvaluationSettings) (interp : FuncInterp) (f : FuncVal)
      (st st2 : EvaluationData) (res : Except LocError Val),
      st.stack_depth ≤ settings.max_stack →
      FuncVal.evaluate interp f
          (settings.context_initializer (Source.new_virtual "<tla>" ""))
          CallLocation.native (Args.ofTlaVars settings.tla_vars) true
          { st with stack_depth := st.stack_depth + 1 } = (res, st2) →
      State.with_tla settings interp (Val.func f) st =
        (match res with
          | Except.ok w => Except.ok w
          | Except.error e =>
            Except.error { e with trace := e.trace ++ [⟨none, "during TLA call"⟩] },
          { st2 with
              stack_depth := st2.stack_depth - 1,
              stack_generation := st2.stack_generation + 1 })) := by
  constructor
  · intro settings interp st v hv
    cases v with
    | func g => exact absurd rfl (hv g)
    | null => rfl
    | bool b => rfl
    | num n => rfl
    | str s => rfl
    | arr elems => rfl
    | obj o => rfl
  · intro settings interp f st st2 res hd hf
    have h : ¬ st.stack_depth > settings.max_stack := Nat.not_lt.mpr hd
    cases res with
    | ok w =>
      exact State.push_description_ok settings.max_stack "during TLA call"
        (fun s => FuncVal.evaluate interp f
          (settings.context_initializer (Source.new_virtual "<tla>" ""))
          CallLocation.native (Args.ofTlaVars settings.tla_vars) true s)
        st w st2 h hf
    | error e =>
      exact State.push_description_err settings.max_stack "during TLA call"
        (fun s => FuncVal.evaluate interp f
          (settings.context_initializer (Source.new_virtual "<tla>" ""))
          CallLocation.native (Args.ofTlaVars settings.tla_vars) true s)
        st e st2 h hf

/-- C6 witness: a non-function value passes through unchanged, and a
function value is called under the TLA frame (here the call fails since no
argument is bound, and the frame's trace element is appended). -/
theorem c6_with_tla_witness :
    State.with_tla EvaluationSettings.default interp0 Val.null st_empty
      = (Except.ok Val.null, st_empty) ∧
    State.with_tla EvaluationSettings.default interp0 (Val.func FuncVal.Id) st_empty
      = (Except.error ⟨Error.FunctionParameterNotBoundInCall (some "v")
          [(some "v", false)], [⟨none, "during TLA call"⟩]⟩, ⟨0, 1, [], []⟩) := by
  constructor
  · exact c6_with_tla.1 EvaluationSettings.default interp0 st_empty Val.null
      (fun g hg => Val.noConfusion hg)
  · have h := c6_with_tla.2 EvaluationSettings.default interp0 FuncVal.Id st_empty
      ⟨1, 0, [], []⟩
      (Except.error ⟨Error.FunctionParameterNotBoundInCall (some "v")
        [(some "v", false)], []⟩)
      (by decide) (by decide)
    simpa using h

/-- C1: for a cached source with its string and parsed memos set and no
evaluated memo yet, `State::import_resolved` (a) fails with
`InfiniteRecursionDetected`, leaving the state unchanged, whenever the
entry's `evaluating` flag is already true (a recursive import of the same
path during its own evaluation); and (b) otherwise runs the evaluator on a
state whose entry has `evaluating = true`, and afterwards — whatever the
entry looks like when evaluation returns — stores the entry with
`evaluating = false` again, adds the `evaluated` memo only on success, and
propagates an evaluation error unchanged. -/
theorem c1_import_resolved_lifecycle :
    (∀ (settings : EvaluationSettings) (ext : ExtFns) (eval : EvalFn)
      (path : SourcePath) (st : EvaluationData) (file : FileData)
      (code : IStr) (ast : LocExpr),
      lookupAssoc st.files path = some file →
      file.evaluated = none → file.string = some code → file.parsed = some ast →
      file.evaluating = true →
      State.import_resolved settings ext eval path st
        = Outcome.err ⟨Error.InfiniteRecursionDetected, []⟩ st) ∧
    (∀ (settings : EvaluationSettings) (ext : ExtFns) (eval : EvalFn)
      (path : SourcePath) (st : EvaluationData) (file file2 : FileData)
      (code : IStr) (ast : LocExpr) (res : Except LocError Val)
      (st2 : EvaluationData),
      lookupAssoc st.files path = some file →
      file.evaluated = none → file.string = some code → file.parsed = some ast →
      file.evaluating = false →
      eval (settings.context_initializer ⟨path, code⟩) ast
          { st with files := updateAssoc st.files path { file with evaluating := true } }
        = (res, st2) →
      lookupAssoc st2.files path = some file2 →
      lookupAssoc ({ st with
          files := updateAssoc st.files path { file with evaluating := true } }
            : EvaluationData).files path
        = some { file with evaluating := true } ∧
      State.import_resolved settings ext eval path st
        = (match res with
          | Except.ok v =>
            Outcome.ok v
              { st2 with
                  files := updateAssoc (updateAssoc st2.files path
                    { file2 with evaluating := false }) path
                    { file2 with evaluating := false, evaluated := some v } }
          | Except.error e =>
            Outcome.err e
              { st2 with
                  files := updateAssoc st2.files path
                    { file2 with evaluating := false } })) := by
  constructor
  · intro settings ext eval path st file code ast hl hfe hstr hparsed hflag
    simp only [State.import_resolved, State.import_resolved_occ_stage,
      State.import_resolved_parse_stage, State.import_resolved_eval_stage,
      hl, hfe, hstr, hparsed, hflag, if_true]
  · intro settings ext eval path st file file2 code ast res st2 hl hfe hstr hparsed
      hflag heval hl2
    refine ⟨by simpa using
      lookupAssoc_updateAssoc_self st.files path { file with evaluating := true }, ?_⟩
    simp only [State.import_resolved, hl]
    simp only [State.import_resolved_occ_stage, hfe, hstr]
    simp only [State.import_resolved_parse_stage, hparsed]
    simp only [State.import_resolved_eval_stage, hflag, Bool.false_eq_true, if_false]
    simp only [heval, hl2]

/-- C1 witness: a concrete recursive import fails with
`InfiniteRecursionDetected`, and a concrete fresh import evaluates, clears
the flag and stores the result in the `evaluated` memo. -/
theorem c1_import_resolved_witness :
    State.import_resolved EvaluationSettings.default ext0 eval0 p0
        ⟨0, 0, [], [(p0, { fd0 with evaluating := true })]⟩
      = Outcome.err ⟨Error.InfiniteRecursionDetected, []⟩
          ⟨0, 0, [], [(p0, { fd0 with evaluating := true })]⟩ ∧
    State.import_resolved EvaluationSettings.default ext0 eval0 p0 st_one
      = Outcome.ok Val.null
          ⟨0, 0, [], [(p0, { fd0 with evaluated := some Val.null })]⟩ := by
  constructor
  · exact c1_import_resolved_lifecycle.1 EvaluationSettings.default ext0 eval0 p0
      ⟨0, 0, [], [(p0, { fd0 with evaluating := true })]⟩
      { fd0 with evaluating := true } "null" ⟨0⟩ (by decide) rfl rfl rfl rfl
  · have h := c1_import_resolved_lifecycle.2 EvaluationSettings.default ext0 eval0 p0
      st_one fd0 { fd0 with evaluating := true } "null" ⟨0⟩ (Except.ok Val.null)
      ⟨0, 0, [], [(p0, { fd0 with evaluating := true })]⟩
      (by decide) rfl rfl rfl rfl (by decide) (by decide)
    have h2 := h.2
    rw [h2]
    decide

/-- C4: the four memo fields of every file-cache entry are monotone across
the cache operations: whenever `import_resolved_str`, `import_resolved_bin`
or `import_resolved` finishes (with a value or an error), every entry of
the cache before the call is still present with every already-set memo
unchanged — in particular, a failed file evaluation leaves the entry's
string, bytes and parsed memos intact.  For `import_resolved` this is
relative to the external evaluator, which must itself be memo-monotone and
must not set the `evaluated` memo of the entry it is evaluating (the
recursion guard enforces exactly that in the real evaluator). -/
theorem c4_cache_monotone :
    (∀ (settings : EvaluationSettings) (ext : ExtFns) (path : SourcePath)
      (st st' : EvaluationData),
      (State.import_resolved_str settings ext path st).stateOf = some st' →
      FilesMono st st') ∧
    (∀ (settings : EvaluationSettings) (ext : ExtFns) (path : SourcePath)
      (st st' : EvaluationData),
      (State.import_resolved_bin settings ext path st).stateOf = some st' →
      FilesMono st st') ∧
    (∀ (settings : EvaluationSettings) (ext : ExtFns) (eval : EvalFn)
      (path : SourcePath) (st st' : EvaluationData),
      (∀ c e s, FilesMono s (eval c e s).2) →
      (∀ c e s fdp, lookupAssoc s.files path = some fdp → fdp.evaluated = none →
        ∀ fdp2, lookupAssoc (eval c e s).2.files path = some fdp2 →
          fdp2.evaluated = none) →
      (State.import_resolved settings ext eval path st).stateOf = some st' →
      FilesMono st st') := by
  refine ⟨?_, ?_, ?_⟩
  · intro settings ext path st st' hres
    exact import_resolved_str_mono settings ext path st hres
  · intro settings ext path st st' hres
    exact import_resolved_bin_mono settings ext path st hres
  · intro settings ext eval path st st' hmono hkeep hres
    exact import_resolved_mono settings ext eval path st hmono hkeep hres

/-- C4 witness: concrete runs of the three operations, each yielding a
memo-monotone cache extension. -/
theorem c4_cache_monotone_witness :
    FilesMono st_empty ⟨0, 0, [], [(p0, FileData.new_string "h")]⟩ ∧
    FilesMono st_empty ⟨0, 0, [], [(p0, FileData.new_bytes [104])]⟩ ∧
    FilesMono st_one ⟨0, 0, [], [(p0, { fd0 with evaluated := some Val.null })]⟩ := by
  obtain ⟨q1, q2, q3⟩ := c4_cache_monotone
  refine ⟨q1 settings1 ext1 p0 st_empty _ (by decide),
    q2 settings1 ext1 p0 st_empty _ (by decide),
    q3 EvaluationSettings.default ext0 eval0 p0 st_one _
      (fun _ _ s => filesMono_refl s) ?_ (by decide)⟩
  intro c e s fdp hlp hfe fdp2 hlp2
  have hlp2' : lookupAssoc s.files p0 = some fdp2 := hlp2
  rw [hlp] at hlp2'
  obtain rfl := Option.some.inj hlp2'
  exact hfe

/-- C10: every `FileData` the cache operations ever store has at least one
of its string and bytes memos set: both constructors guarantee it, the
three cache operations preserve it as an invariant of the whole cache (for
`import_resolved`, relative to an invariant-preserving evaluator), and
under that invariant the "either string or bytes should be set"
expectations in `import_resolved_str`, `import_resolved_bin` and
`import_resolved` are never reached, so they cannot panic. -/
theorem c10_cache_entries_have_source :
    (∀ s, FileData.sb (FileData.new_string s)) ∧
    (∀ b, FileData.sb (FileData.new_bytes b)) ∧
    (∀ (settings : EvaluationSettings) (ext : ExtFns) (path : SourcePath)
      (st : EvaluationData), CacheInv st →
      State.import_resolved_str settings ext path st
          ≠ Outcome.panic "either string or bytes should be set" ∧
      ∀ st', (State.import_resolved_str settings ext path st).stateOf = some st' →
        CacheInv st') ∧
    (∀ (settings : EvaluationSettings) (ext : ExtFns) (path : SourcePath)
      (st : EvaluationData), CacheInv st →
      State.import_resolved_bin settings ext path st
          ≠ Outcome.panic "either string or bytes should be set" ∧
      ∀ st', (State.import_resolved_bin settings ext path st).stateOf = some st' →
        CacheInv st') ∧
    (∀ (settings : EvaluationSettings) (ext : ExtFns) (eval : EvalFn)
      (path : SourcePath) (st : EvaluationData), CacheInv st →
      State.import_resolved settings ext eval path st
          ≠ Outcome.panic "either string or bytes should be set" ∧
      ((∀ c e s, CacheInv s → CacheInv (eval c e s).2) →
        ∀ st', (State.import_resolved settings ext eval path st).stateOf = some st' →
          CacheInv st')) := by
  refine ⟨?_, ?_, ?_, ?_, ?_⟩
  · intro s
    left
    simp [FileData.new_string]
  · intro b
    right
    simp [FileData.new_bytes]
  · intro settings ext path st hinv
    exact ⟨import_resolved_str_ne_panic settings ext path st hinv,
      fun st' hres => import_resolved_str_inv settings ext path st hinv hres⟩
  · intro settings ext path st hinv
    exact ⟨import_resolved_bin_ne_panic settings ext path st hinv,
      fun st' hres => import_resolved_bin_inv settings ext path st hinv hres⟩
  · intro settings ext eval path st hinv
    exact ⟨import_resolved_ne_panic settings ext eval path st hinv,
      fun hevalinv st' hres =>
        import_resolved_inv settings ext eval path st hinv hevalinv hres⟩

/-- C10 witness: the constructors' guarantee and the invariant at a
concrete cache. -/
theorem c10_cache_entries_witness :
    FileData.sb (FileData.new_string "x") ∧
    State.import_resolved_str EvaluationSettings.default ext0 p0 st_one
      ≠ Outcome.panic "either string or bytes should be set" ∧
    CacheInv st_one := by
  have hinv : CacheInv st_one :=
    CacheInv_single p0 fd0 (Or.inl rfl) 0 0 []
  obtain ⟨q1, _, q3, _, q5⟩ := c10_cache_entries_have_source
  refine ⟨q1 "x", (q3 EvaluationSettings.default ext0 p0 st_one hinv).1, ?_⟩
  exact (q3 EvaluationSettings.default ext0 p0 st_one hinv).2 st_one (by decide)
